import Mathlib

/-!
# SimpleVector: a shallow embedding of `simple_vector.h`

The class template `SimpleVector<Type>` owns an `ArrayPtr<Type>` buffer `items_` and two
counters `size_` and `capacity_`.  The embedding keeps the three members as they are:

* the buffer is a `List α` whose length is the number of allocated slots;
* `size_t` counters are `Nat`.  A buffer of `capacity_` slots is allocated whenever the
  counter is set, so `capacity_ * 2` and `size_ + 1` stay far below `2 ^ 64` on every state
  that can exist in memory; the counters are therefore not reduced modulo `2 ^ 64`;
* iterators (`Type*`) are offsets from `begin()`: `begin()` is `0`, `end()` is `size_`;
* `array_ptr.h` is not among the sources: `ArrayPtr<Type>` is modelled from the specification
  (a block of exactly `capacity` default-valued slots, unchecked indexed access, `swap`);
* memory allocation is assumed to succeed, except in the definitions whose name ends in `E`:
  they take an allocator `mem` that may refuse a request and end in `Outcome.threw` then;
* reading or writing a slot outside the allocated buffer is undefined behaviour in C++.
  Here a write outside the buffer is dropped and a read outside yields `Type{}`; the
  theorems below only use slots inside the buffer.

A move assignment `*d = std::move(*s)` gives the destination the source's value and leaves
the source in its moved-from state, which depends on `Type` (unchanged for `int`, empty for
`std::string`).  The element type therefore carries `movedFrom`.
-/

set_option linter.unusedSectionVars false

/-- The element type of the template: its value-initialised object `Type{}` and the state in
which a move leaves its source object. -/
class Elem (α : Type) where
  /-- The value `Type{}`. -/
  dflt : α
  /-- The state of an object after it has been moved from. -/
  movedFrom : α → α

/-- An element type like `int`: a move is a copy. -/
instance instElemNat : Elem Nat where
  dflt := 0
  movedFrom := fun x => x

/-- An element type like `std::string`: a move empties the source. -/
instance instElemString : Elem String where
  dflt := ""
  movedFrom := fun _ => ""

namespace ArrayPtr

variable {α : Type} [Elem α]

/-- Modelled from the spec: `array_ptr.h` (`ArrayPtr<Type>`) is not among the sources.  The
constructor `ArrayPtr(size_t size)` "allocates storage for exactly `capacity` default-valued
slots". -/
def create (capacity : Nat) : List α :=
  List.replicate capacity Elem.dflt

/-- Modelled from the spec: the default-constructed `ArrayPtr` of `array_ptr.h` owns no
storage ("capacity 0 ⇔ no storage owned"). -/
def empty : List α := []

/-- Modelled from the spec: `ArrayPtr::operator[]`, the unchecked "raw indexed access" of
`array_ptr.h`, read side. -/
def index (p : List α) (i : Nat) : α :=
  p.getD i Elem.dflt

/-- Modelled from the spec: `ArrayPtr::operator[]` of `array_ptr.h`, used as the target of an
assignment `p[i] = x`. -/
def assign (p : List α) (i : Nat) (x : α) : List α :=
  p.set i x

end ArrayPtr

section StdAlgorithms

variable {α : Type} [Elem α]

/-- The algorithm `std::move(first, last, d_first)` for a source range and a destination in two
different buffers: `n = last - first` assignments `*d_first++ = std::move(*first++)`, lowest
index first.  Returns the source buffer (elements moved from) and the destination buffer. -/
def stdMoveLoop (src dst : List α) (first d_first : Nat) : Nat → List α × List α
  | 0 => (src, dst)
  | n + 1 =>
    let x := ArrayPtr.index src first
    stdMoveLoop (ArrayPtr.assign src first (Elem.movedFrom x)) (ArrayPtr.assign dst d_first x)
      (first + 1) (d_first + 1) n

/-- The call `std::move(first, last, d_first)` between two buffers. -/
def stdMove (src : List α) (first last : Nat) (dst : List α) (d_first : Nat) :
    List α × List α :=
  stdMoveLoop src dst first d_first (last - first)

/-- The algorithm `std::move(first, last, d_first)` when all three iterators point into the same
buffer: `n` assignments `*d_first++ = std::move(*first++)`, lowest index first.  The standard
asks for `d_first` outside `[first, last)`; with `d_first` inside the range the loop below is
what the library runs for an element type that is not trivially copyable. -/
def stdMoveSelfLoop (buf : List α) (first d_first : Nat) : Nat → List α
  | 0 => buf
  | n + 1 =>
    let x := ArrayPtr.index buf first
    let buf1 := ArrayPtr.assign buf d_first x
    let buf2 := ArrayPtr.assign buf1 first (Elem.movedFrom x)
    stdMoveSelfLoop buf2 (first + 1) (d_first + 1) n

/-- The call `std::move(first, last, d_first)` inside one buffer. -/
def stdMoveSelf (buf : List α) (first last d_first : Nat) : List α :=
  stdMoveSelfLoop buf first d_first (last - first)

/-- The algorithm `std::copy(first, last, d_first)` between two buffers (also what `std::move`
does when the source iterators are `const Type*`: the assignment copies): `n` assignments
`*d_first++ = *first++`. -/
def stdCopyLoop (src dst : List α) (first d_first : Nat) : Nat → List α
  | 0 => dst
  | n + 1 =>
    stdCopyLoop src (ArrayPtr.assign dst d_first (ArrayPtr.index src first))
      (first + 1) (d_first + 1) n

/-- The call `std::copy(first, last, d_first)` between two buffers. -/
def stdCopy (src : List α) (first last : Nat) (dst : List α) (d_first : Nat) : List α :=
  stdCopyLoop src dst first d_first (last - first)

end StdAlgorithms

/-- The data members of `SimpleVector<Type>`. -/
structure SimpleVector (α : Type) where
  /-- The owned buffer `ArrayPtr<Type> items_`. -/
  items_ : List α
  /-- The member `size_t size_ = 0`. -/
  size_ : Nat
  /-- The member `size_t capacity_ = 0`. -/
  capacity_ : Nat
  deriving DecidableEq, Repr

/-- The error thrown by `At`. -/
inductive Error where
  | out_of_range
  deriving DecidableEq, Repr

namespace SimpleVector

variable {α : Type} [Elem α]

/-- The loop of `Fill(first, last, value)`: `*first = std::move(value); first++` for each of the
`n = last - first` slots.  The by-value parameter `value` is moved from at every step. -/
def FillLoop (buf : List α) (first : Nat) (value : α) : Nat → List α
  | 0 => buf
  | n + 1 => FillLoop (ArrayPtr.assign buf first value) (first + 1) (Elem.movedFrom value) n

/-- The private member `Fill(Iterator first, Iterator last, Type value)`. -/
def Fill (buf : List α) (first last : Nat) (value : α) : List α :=
  FillLoop buf first value (last - first)

/-- The loop of `FillWithDefault(first, last)`: `*first = Type{}; first++`. -/
def FillWithDefaultLoop (buf : List α) (first : Nat) : Nat → List α
  | 0 => buf
  | n + 1 => FillWithDefaultLoop (ArrayPtr.assign buf first Elem.dflt) (first + 1) n

/-- The private member `FillWithDefault(Iterator first, Iterator last)`. -/
def FillWithDefault (buf : List α) (first last : Nat) : List α :=
  FillWithDefaultLoop buf first (last - first)

/-- The constructor `SimpleVector() noexcept = default`. -/
def mkDefault : SimpleVector α :=
  { items_ := ArrayPtr.empty, size_ := 0, capacity_ := 0 }

/-- The constructor `explicit SimpleVector(size_t size)`. -/
def mkSize (size : Nat) : SimpleVector α :=
  { items_ := Fill (ArrayPtr.create size) 0 size Elem.dflt, size_ := size, capacity_ := size }

/-- The constructor `SimpleVector(size_t size, const Type& value)`. -/
def mkSizeValue (size : Nat) (value : α) : SimpleVector α :=
  { items_ := Fill (ArrayPtr.create size) 0 size value, size_ := size, capacity_ := size }

/-- The constructor `SimpleVector(std::initializer_list<Type> init)`.  The elements of an
initializer list are `const`, so `std::move` copies them. -/
def mkInit (init : List α) : SimpleVector α :=
  { items_ := stdCopy init 0 init.length (ArrayPtr.create init.length) 0,
    size_ := init.length, capacity_ := init.length }

/-- The constructor `SimpleVector(ReserveProxyObj reserve)`, with `reserve.GetCapacity()` as
argument. -/
def mkReserve (capacity : Nat) : SimpleVector α :=
  { items_ := ArrayPtr.create capacity, size_ := 0, capacity_ := capacity }

/-- The accessor `GetSize`. -/
def GetSize (v : SimpleVector α) : Nat := v.size_

/-- The accessor `GetCapacity`. -/
def GetCapacity (v : SimpleVector α) : Nat := v.capacity_

/-- The accessor `IsEmpty`. -/
def IsEmpty (v : SimpleVector α) : Bool := v.size_ == 0

/-- The iterator `begin()` (also `cbegin()`), as an offset. -/
def begin (_v : SimpleVector α) : Nat := 0

/-- The iterator `end()` (also `cend()`), as an offset. -/
def cend (v : SimpleVector α) : Nat := v.begin + v.size_

/-- The unchecked `operator[]`. -/
def index (v : SimpleVector α) (i : Nat) : α :=
  ArrayPtr.index v.items_ i

/-- The checked accessor `At`. -/
def At (v : SimpleVector α) (i : Nat) : Except Error α :=
  if i ≥ v.size_ then Except.error Error.out_of_range
  else Except.ok (ArrayPtr.index v.items_ i)

/-- The member `swap`: both vectors after the exchange. -/
def swap (v other : SimpleVector α) : SimpleVector α × SimpleVector α :=
  ({ items_ := other.items_, size_ := other.size_, capacity_ := other.capacity_ },
   { items_ := v.items_, size_ := v.size_, capacity_ := v.capacity_ })

/-- The member `Clear`. -/
def Clear (v : SimpleVector α) : SimpleVector α :=
  { v with size_ := 0 }

/-- The member `Resize`: three consecutive `if` statements. -/
def Resize (v : SimpleVector α) (new_size : Nat) : SimpleVector α :=
  let v1 := if new_size < v.size_ then { v with size_ := new_size } else v
  let v2 :=
    if new_size ≤ v1.capacity_ then
      { v1 with items_ := FillWithDefault v1.items_ v1.cend (v1.begin + new_size),
                size_ := new_size }
    else v1
  if new_size > v2.capacity_ then
    let new_capacity := max new_size (v2.capacity_ * 2)
    let new_items : List α := ArrayPtr.create new_capacity
    let new_items := FillWithDefault new_items v2.capacity_ new_size
    let new_items := (stdMove v2.items_ v2.begin v2.cend new_items 0).2
    { items_ := new_items, size_ := new_size, capacity_ := new_capacity }
  else v2

/-- The member `Reserve`. -/
def Reserve (v : SimpleVector α) (new_capacity : Nat) : SimpleVector α :=
  if new_capacity > v.capacity_ then
    let new_items : List α := ArrayPtr.create new_capacity
    let new_items := (stdMove v.items_ v.begin v.cend new_items 0).2
    { v with items_ := new_items, capacity_ := new_capacity }
  else v

/-- The member `PushBack(const Type& item)`. -/
def PushBack (v : SimpleVector α) (item : α) : SimpleVector α :=
  if v.size_ < v.capacity_ then
    let size := v.size_ + 1
    { v with size_ := size, items_ := ArrayPtr.assign v.items_ (size - 1) item }
  else
    let new_size := v.size_ + 1
    let w := v.Resize new_size
    { w with items_ := ArrayPtr.assign w.items_ (w.size_ - 1) item }

/-- The member `Insert(ConstIterator pos, const Type& value)`: the returned iterator (as an
offset) and the vector afterwards. -/
def Insert (v : SimpleVector α) (pos : Nat) (value : α) : Nat × SimpleVector α :=
  let npos := pos - v.begin
  if v.capacity_ = 0 then
    let tmp : SimpleVector α := mkSize 1
    let tmp := { tmp with items_ := ArrayPtr.assign tmp.items_ 0 value }
    let this := (v.swap tmp).1
    (this.begin + npos, this)
  else if v.size_ < v.capacity_ then
    let items := stdMoveSelf v.items_ (v.begin + npos) v.cend (v.begin + npos + 1)
    let items := ArrayPtr.assign items npos value
    let this := { v with items_ := items, size_ := v.size_ + 1 }
    (this.begin + npos, this)
  else
    let tmp : SimpleVector α := mkSize (v.capacity_ * 2)
    let tmp := tmp.Resize (v.size_ + 1)
    let tmp := { tmp with items_ := stdCopy v.items_ v.begin pos tmp.items_ tmp.begin }
    let tmp := { tmp with items_ := ArrayPtr.assign tmp.items_ npos value }
    let tmp := { tmp with items_ := stdCopy v.items_ pos v.cend tmp.items_ (tmp.begin + npos + 1) }
    let this := (v.swap tmp).1
    (this.begin + npos, this)

/-- The member `Insert(Iterator pos, Type&& value)`: the returned iterator (as an offset) and the
vector afterwards. -/
def InsertMove (v : SimpleVector α) (pos : Nat) (value : α) : Nat × SimpleVector α :=
  let npos := pos - v.begin
  if v.capacity_ = 0 then
    let temp : List α := ArrayPtr.create 1
    let temp := ArrayPtr.assign temp 0 value
    let this := { items_ := temp, size_ := 1, capacity_ := 1 }
    (this.begin + npos, this)
  else if v.size_ < v.capacity_ then
    let items := stdMoveSelf v.items_ (v.begin + npos) v.cend (v.begin + npos + 1)
    let items := ArrayPtr.assign items npos value
    let this := { v with items_ := items, size_ := v.size_ + 1 }
    (this.begin + npos, this)
  else
    let temp : List α := ArrayPtr.create (v.capacity_ * 2)
    -- for (size_t i = 0; i < capacity_ * 2; ++i) temp[i] = std::move(Type{});
    let temp := FillWithDefaultLoop temp 0 (v.capacity_ * 2)
    let tmp : SimpleVector α := { (mkDefault : SimpleVector α) with items_ := temp }
    let moved := stdMove v.items_ v.begin pos tmp.items_ tmp.begin
    let tmp := { tmp with items_ := ArrayPtr.assign moved.2 npos value }
    let moved := stdMove moved.1 pos v.cend tmp.items_ (tmp.begin + npos + 1)
    let size := v.size_ + 1
    let tmp := { items_ := moved.2, size_ := size, capacity_ := v.capacity_ * 2 }
    let this := ({ v with items_ := moved.1, size_ := size }.swap tmp).1
    (this.begin + npos, this)

/-- The member `PushBack(Type&& item)`: `Insert(end(), std::move(item))`. -/
def PushBackMove (v : SimpleVector α) (item : α) : SimpleVector α :=
  (v.InsertMove v.cend item).2

/-- The member `PopBack`: `assert(size_ > 0); size_--`.  `none` is the failed assertion. -/
def PopBack (v : SimpleVector α) : Option (SimpleVector α) :=
  if v.size_ > 0 then some { v with size_ := v.size_ - 1 } else none

/-- The member `Erase(ConstIterator pos)`: the returned iterator (as an offset) and the vector
afterwards. -/
def Erase (v : SimpleVector α) (pos : Nat) : Nat × SimpleVector α :=
  let index := pos - v.begin
  if !v.IsEmpty then
    let items := stdMoveSelf v.items_ (v.begin + index + 1) v.cend (v.begin + index)
    let this := { v with items_ := items, size_ := v.size_ - 1 }
    (this.begin + index, this)
  else
    (v.begin + index, v)

/-- The copy constructor `SimpleVector(const SimpleVector& other)`.  The new object starts from
the default member initialisers (`size_ = 0`, `capacity_ = 0`, empty buffer). -/
def mkCopy (other : SimpleVector α) : SimpleVector α :=
  let this : SimpleVector α := mkDefault
  if other.GetSize ≤ this.capacity_ then
    { this with size_ := other.GetSize,
                items_ := stdCopy other.items_ other.begin other.cend this.items_ this.begin }
  else
    let tmp : SimpleVector α := mkSize other.GetSize
    let tmp :=
      if other.GetSize > 0 then
        { tmp with items_ := stdCopy other.items_ other.begin other.cend tmp.items_ tmp.begin }
      else tmp
    (this.swap tmp).1

/-- The move constructor `SimpleVector(SimpleVector&& other)`: the new vector and the source
afterwards. -/
def mkMove (other : SimpleVector α) : SimpleVector α × SimpleVector α :=
  let this : SimpleVector α :=
    { items_ := ArrayPtr.create other.GetCapacity, size_ := other.GetSize,
      capacity_ := other.GetCapacity }
  let moved := stdMove other.items_ other.begin other.cend this.items_ this.begin
  ({ this with items_ := moved.2 }, Clear { other with items_ := moved.1 })

/-- The copy assignment `operator=(const SimpleVector& rhs)` when `this != &rhs`: the temporary
copy is swapped into `*this`. -/
def copyAssign (v rhs : SimpleVector α) : SimpleVector α :=
  let tmp := mkCopy rhs
  (v.swap tmp).1

/-- The live elements: the range `[begin(), end())` read through `operator[]`. -/
def toList (v : SimpleVector α) : List α :=
  (List.range v.size_).map (fun i => v.index (v.begin + i))

/-- The invariants I1 (`size_ ≤ capacity_`) and I2 (`capacity_` is the length of the buffer). -/
def Valid (v : SimpleVector α) : Prop :=
  v.size_ ≤ v.capacity_ ∧ v.capacity_ = v.items_.length

instance (v : SimpleVector α) : Decidable v.Valid := by
  unfold Valid; infer_instance

end SimpleVector


section ComparisonAlgorithms

variable {α : Type} [Elem α]

/-- The loop of the three-iterator `std::equal`: `false` at the first pair of elements that
`operator==` of the element type does not accept. -/
def stdEqualLoop [BEq α] (a b : List α) (first1 first2 : Nat) : Nat → Bool
  | 0 => true
  | n + 1 =>
    if ArrayPtr.index a first1 == ArrayPtr.index b first2 then
      stdEqualLoop a b (first1 + 1) (first2 + 1) n
    else false

/-- The call `std::equal(first1, last1, first2, last2)` on random-access ranges: ranges of
different lengths are unequal, otherwise the elements are compared pairwise. -/
def stdEqual [BEq α] (a : List α) (first1 last1 : Nat) (b : List α) (first2 last2 : Nat) :
    Bool :=
  if last1 - first1 ≠ last2 - first2 then false
  else stdEqualLoop a b first1 first2 (last1 - first1)

/-- The loop of `std::lexicographical_compare`, with `n1 = last1 - first1` and
`n2 = last2 - first2` elements left:
`for (; first1 != last1 && first2 != last2; ++first1, ++first2)` returning `true` when
`*first1 < *first2` and `false` when `*first2 < *first1`; after the loop
`first1 == last1 && first2 != last2`. -/
def stdLexicographicalCompareLoop [LT α] [DecidableRel (fun (x y : α) => x < y)]
    (a b : List α) (first1 first2 : Nat) : Nat → Nat → Bool
  | 0, n2 => decide (n2 ≠ 0)
  | _ + 1, 0 => false
  | n1 + 1, n2 + 1 =>
    if ArrayPtr.index a first1 < ArrayPtr.index b first2 then true
    else if ArrayPtr.index b first2 < ArrayPtr.index a first1 then false
    else stdLexicographicalCompareLoop a b (first1 + 1) (first2 + 1) n1 n2

/-- The call `std::lexicographical_compare(first1, last1, first2, last2)`. -/
def stdLexicographicalCompare [LT α] [DecidableRel (fun (x y : α) => x < y)]
    (a : List α) (first1 last1 : Nat) (b : List α) (first2 last2 : Nat) : Bool :=
  stdLexicographicalCompareLoop a b first1 first2 (last1 - first1) (last2 - first2)

end ComparisonAlgorithms

namespace SimpleVector

variable {α : Type} [Elem α]

/-- The free function `operator==`. -/
def operatorEq [BEq α] (lhs rhs : SimpleVector α) : Bool :=
  stdEqual lhs.items_ lhs.begin lhs.cend rhs.items_ rhs.begin rhs.cend

/-- The free function `operator!=`. -/
def operatorNe [BEq α] (lhs rhs : SimpleVector α) : Bool :=
  !(operatorEq lhs rhs)

/-- The free function `operator<`. -/
def operatorLt [LT α] [DecidableRel (fun (x y : α) => x < y)] (lhs rhs : SimpleVector α) :
    Bool :=
  stdLexicographicalCompare lhs.items_ lhs.begin lhs.cend rhs.items_ rhs.begin rhs.cend

/-- The free function `operator<=`. -/
def operatorLe [LT α] [DecidableRel (fun (x y : α) => x < y)] (lhs rhs : SimpleVector α) :
    Bool :=
  !(operatorLt rhs lhs)

/-- The free function `operator>`. -/
def operatorGt [LT α] [DecidableRel (fun (x y : α) => x < y)] (lhs rhs : SimpleVector α) :
    Bool :=
  operatorLt rhs lhs

/-- The free function `operator>=`. -/
def operatorGe [LT α] [DecidableRel (fun (x y : α) => x < y)] (lhs rhs : SimpleVector α) :
    Bool :=
  !(operatorLt lhs rhs)

/-- A sequence of `PushBack` calls, one per entry in order; the flag of an entry selects the
overload: `true` for `PushBack(Type&&)`, `false` for `PushBack(const Type&)`. -/
def pushAll (v : SimpleVector α) : List (Bool × α) → SimpleVector α
  | [] => v
  | (true, item) :: rest => pushAll (v.PushBackMove item) rest
  | (false, item) :: rest => pushAll (v.PushBack item) rest

/-- The states reachable from a constructor by the public operations, each used within its
contract: `Insert` with a position in `[begin, end]`, `PopBack` on a non-empty vector, `Erase`
with a position in `[begin, end)` or with `begin()` on an empty vector. -/
inductive Reachable : SimpleVector α → Prop
  | mkDefault : Reachable mkDefault
  | mkSize (size : Nat) : Reachable (mkSize size)
  | mkSizeValue (size : Nat) (value : α) : Reachable (mkSizeValue size value)
  | mkInit (init : List α) : Reachable (mkInit init)
  | mkReserve (capacity : Nat) : Reachable (mkReserve capacity)
  | mkCopy (other : SimpleVector α) : Reachable other → Reachable (mkCopy other)
  | mkMoveNew (other : SimpleVector α) : Reachable other → Reachable (mkMove other).1
  | mkMoveSource (other : SimpleVector α) : Reachable other → Reachable (mkMove other).2
  | copyAssign (v rhs : SimpleVector α) : Reachable v → Reachable rhs →
      Reachable (copyAssign v rhs)
  | PushBack (v : SimpleVector α) (item : α) : Reachable v → Reachable (v.PushBack item)
  | PushBackMove (v : SimpleVector α) (item : α) : Reachable v →
      Reachable (v.PushBackMove item)
  | Insert (v : SimpleVector α) (pos : Nat) (value : α) : Reachable v → pos ≤ v.cend →
      Reachable (v.Insert pos value).2
  | InsertMove (v : SimpleVector α) (pos : Nat) (value : α) : Reachable v → pos ≤ v.cend →
      Reachable (v.InsertMove pos value).2
  | PopBack (v w : SimpleVector α) : Reachable v → v.PopBack = some w → Reachable w
  | Erase (v : SimpleVector α) (pos : Nat) : Reachable v →
      (pos < v.cend ∨ (v.IsEmpty = true ∧ pos = v.begin)) → Reachable (v.Erase pos).2
  | swapThis (v other : SimpleVector α) : Reachable v → Reachable other →
      Reachable (v.swap other).1
  | swapOther (v other : SimpleVector α) : Reachable v → Reachable other →
      Reachable (v.swap other).2
  | Clear (v : SimpleVector α) : Reachable v → Reachable v.Clear
  | Resize (v : SimpleVector α) (new_size : Nat) : Reachable v → Reachable (v.Resize new_size)
  | Reserve (v : SimpleVector α) (new_capacity : Nat) : Reachable v →
      Reachable (v.Reserve new_capacity)

end SimpleVector

/-! ## Assignment expressions, growth counting and allocation failure -/

namespace SimpleVector

variable {α : Type} [Elem α]

/-- The copy assignment `operator=(const SimpleVector& rhs)`: `aliased` tells whether
`this == &rhs`; only when it does not is the temporary copy built and swapped in. -/
def operatorAssign (v rhs : SimpleVector α) (aliased : Bool) : SimpleVector α :=
  if !aliased then copyAssign v rhs else v

/-- The expression `a = std::move(b)` for two distinct vectors: `a` and `b` afterwards.  The
class declares a copy constructor, a move constructor and a copy assignment operator and no
move assignment operator, so none is generated and the only candidate is
`operator=(const SimpleVector&)`, to whose parameter the rvalue binds: `b` is read, not
changed. -/
def moveAssignExpr (a b : SimpleVector α) : SimpleVector α × SimpleVector α :=
  (operatorAssign a b false, b)

/-- One `PushBack` call: the flag selects the overload, `true` for `PushBack(Type&&)`, `false`
for `PushBack(const Type&)`. -/
def pushOne (v : SimpleVector α) (call : Bool × α) : SimpleVector α :=
  if call.1 then v.PushBackMove call.2 else v.PushBack call.2

/-- The number of calls, in a sequence of `PushBack` calls, after which `GetCapacity()` differs
from what it was before the call. -/
def pushGrowths (v : SimpleVector α) : List (Bool × α) → Nat
  | [] => 0
  | call :: rest =>
    (if (pushOne v call).GetCapacity ≠ v.GetCapacity then 1 else 0) +
      pushGrowths (pushOne v call) rest

/-- The capacity claimed after `n` pushes onto a default-constructed vector: 0 before any
push, afterwards the smallest power of two that is at least `n`. -/
def claimedCapacity (n : Nat) : Nat :=
  if n = 0 then 0 else 2 ^ Nat.clog 2 n

/-- The number of capacity changes claimed for `n` pushes onto a default-constructed vector:
`ceil(log2 n) + 1` once something was pushed. -/
def claimedGrowths (n : Nat) : Nat :=
  if n = 0 then 0 else Nat.clog 2 n + 1

end SimpleVector

/-- The exception `std::bad_alloc`. -/
inductive BadAlloc where
  | bad_alloc
  deriving DecidableEq, Repr

/-- The way a member function that may run out of memory ends: it returns its result, or an
exception leaves it.  Both carry the members of `*this` at that moment. -/
inductive Outcome (α : Type) (ρ : Type) where
  | returned (result : ρ) (this : SimpleVector α)
  | threw (e : BadAlloc) (this : SimpleVector α)

namespace ArrayPtr

variable {α : Type} [Elem α]

/-- Modelled from the spec: the constructor `ArrayPtr(size_t size)` of `array_ptr.h` with an
allocator that can refuse: "capacity 0 is legal and allocates nothing; never partially
succeeds — either all `capacity` slots are usable or the operation fails with an allocation
error".  `mem n` tells whether the allocator grants a block of `n` slots. -/
def createE (mem : Nat → Bool) (capacity : Nat) : Except BadAlloc (List α) :=
  if capacity = 0 then Except.ok (create capacity)
  else if mem capacity then Except.ok (create capacity)
  else Except.error BadAlloc.bad_alloc

end ArrayPtr

namespace SimpleVector

variable {α : Type} [Elem α]

/-- The constructor `explicit SimpleVector(size_t size)` with an allocator that can refuse: the
member initialiser `items_(size)` allocates before the body runs. -/
def mkSizeE (mem : Nat → Bool) (size : Nat) : Except BadAlloc (SimpleVector α) :=
  match (ArrayPtr.createE mem size : Except BadAlloc (List α)) with
  | Except.error e => Except.error e
  | Except.ok items =>
    Except.ok { items_ := Fill items 0 size Elem.dflt, size_ := size, capacity_ := size }

/-- The copy constructor with an allocator that can refuse: the only allocation is the one of
the temporary `tmp(other.GetSize())`. -/
def mkCopyE (mem : Nat → Bool) (other : SimpleVector α) : Except BadAlloc (SimpleVector α) :=
  let this : SimpleVector α := mkDefault
  if other.GetSize ≤ this.capacity_ then
    let copy : SimpleVector α :=
      { this with size_ := other.GetSize,
                  items_ := stdCopy other.items_ other.begin other.cend this.items_ this.begin }
    Except.ok copy
  else
    match (mkSizeE mem other.GetSize : Except BadAlloc (SimpleVector α)) with
    | Except.error e => Except.error e
    | Except.ok tmp =>
      let tmp :=
        if other.GetSize > 0 then
          { tmp with items_ := stdCopy other.items_ other.begin other.cend tmp.items_ tmp.begin }
        else tmp
      Except.ok (this.swap tmp).1

/-- The copy assignment `operator=(const SimpleVector& rhs)` with an allocator that can
refuse: an exception of the copy constructor leaves the operator before the swap. -/
def operatorAssignE (mem : Nat → Bool) (v rhs : SimpleVector α) (aliased : Bool) :
    Outcome α Unit :=
  if !aliased then
    match (mkCopyE mem rhs : Except BadAlloc (SimpleVector α)) with
    | Except.error e => Outcome.threw e v
    | Except.ok tmp => Outcome.returned () (v.swap tmp).1
  else Outcome.returned () v

/-- The member `Resize` with an allocator that can refuse: the allocation is the declaration
`ArrayPtr<Type> new_items(new_capacity)` in the third `if`. -/
def ResizeE (mem : Nat → Bool) (v : SimpleVector α) (new_size : Nat) : Outcome α Unit :=
  let v1 := if new_size < v.size_ then { v with size_ := new_size } else v
  let v2 :=
    if new_size ≤ v1.capacity_ then
      { v1 with items_ := FillWithDefault v1.items_ v1.cend (v1.begin + new_size),
                size_ := new_size }
    else v1
  if new_size > v2.capacity_ then
    let new_capacity := max new_size (v2.capacity_ * 2)
    match (ArrayPtr.createE mem new_capacity : Except BadAlloc (List α)) with
    | Except.error e => Outcome.threw e v2
    | Except.ok new_items =>
      let new_items := FillWithDefault new_items v2.capacity_ new_size
      let new_items := (stdMove v2.items_ v2.begin v2.cend new_items 0).2
      Outcome.returned () { items_ := new_items, size_ := new_size, capacity_ := new_capacity }
  else Outcome.returned () v2

/-- The member `Reserve` with an allocator that can refuse. -/
def ReserveE (mem : Nat → Bool) (v : SimpleVector α) (new_capacity : Nat) : Outcome α Unit :=
  if new_capacity > v.capacity_ then
    match (ArrayPtr.createE mem new_capacity : Except BadAlloc (List α)) with
    | Except.error e => Outcome.threw e v
    | Except.ok new_items =>
      let new_items := (stdMove v.items_ v.begin v.cend new_items 0).2
      Outcome.returned () { v with items_ := new_items, capacity_ := new_capacity }
  else Outcome.returned () v

/-- The member `PushBack(const Type& item)` with an allocator that can refuse: an exception of
`Resize` leaves `PushBack` with the members as `Resize` left them. -/
def PushBackE (mem : Nat → Bool) (v : SimpleVector α) (item : α) : Outcome α Unit :=
  if v.size_ < v.capacity_ then
    let size := v.size_ + 1
    Outcome.returned ()
      { v with size_ := size, items_ := ArrayPtr.assign v.items_ (size - 1) item }
  else
    let new_size := v.size_ + 1
    match v.ResizeE mem new_size with
    | Outcome.threw e w => Outcome.threw e w
    | Outcome.returned _ w =>
      Outcome.returned () { w with items_ := ArrayPtr.assign w.items_ (w.size_ - 1) item }

/-- The member `Insert(ConstIterator pos, const Type& value)` with an allocator that can
refuse: the allocations are those of the temporary `tmp` (its constructor, its `Resize`), all
before `swap(tmp)`. -/
def InsertE (mem : Nat → Bool) (v : SimpleVector α) (pos : Nat) (value : α) : Outcome α Nat :=
  let npos := pos - v.begin
  if v.capacity_ = 0 then
    match (mkSizeE mem 1 : Except BadAlloc (SimpleVector α)) with
    | Except.error e => Outcome.threw e v
    | Except.ok tmp =>
      let tmp := { tmp with items_ := ArrayPtr.assign tmp.items_ 0 value }
      let this := (v.swap tmp).1
      Outcome.returned (this.begin + npos) this
  else if v.size_ < v.capacity_ then
    let items := stdMoveSelf v.items_ (v.begin + npos) v.cend (v.begin + npos + 1)
    let items := ArrayPtr.assign items npos value
    let this := { v with items_ := items, size_ := v.size_ + 1 }
    Outcome.returned (this.begin + npos) this
  else
    match (mkSizeE mem (v.capacity_ * 2) : Except BadAlloc (SimpleVector α)) with
    | Except.error e => Outcome.threw e v
    | Except.ok tmp =>
      match tmp.ResizeE mem (v.size_ + 1) with
      | Outcome.threw e _ => Outcome.threw e v
      | Outcome.returned _ tmp =>
        let tmp := { tmp with items_ := stdCopy v.items_ v.begin pos tmp.items_ tmp.begin }
        let tmp := { tmp with items_ := ArrayPtr.assign tmp.items_ npos value }
        let tmp :=
          { tmp with items_ := stdCopy v.items_ pos v.cend tmp.items_ (tmp.begin + npos + 1) }
        let this := (v.swap tmp).1
        Outcome.returned (this.begin + npos) this

/-- The member `Insert(Iterator pos, Type&& value)` with an allocator that can refuse: the
allocation is the declaration `ArrayPtr<Type> temp(...)`, the first statement of its branch. -/
def InsertMoveE (mem : Nat → Bool) (v : SimpleVector α) (pos : Nat) (value : α) :
    Outcome α Nat :=
  let npos := pos - v.begin
  if v.capacity_ = 0 then
    match (ArrayPtr.createE mem 1 : Except BadAlloc (List α)) with
    | Except.error e => Outcome.threw e v
    | Except.ok temp =>
      let temp := ArrayPtr.assign temp 0 value
      let this : SimpleVector α := { items_ := temp, size_ := 1, capacity_ := 1 }
      Outcome.returned (this.begin + npos) this
  else if v.size_ < v.capacity_ then
    let items := stdMoveSelf v.items_ (v.begin + npos) v.cend (v.begin + npos + 1)
    let items := ArrayPtr.assign items npos value
    let this := { v with items_ := items, size_ := v.size_ + 1 }
    Outcome.returned (this.begin + npos) this
  else
    match (ArrayPtr.createE mem (v.capacity_ * 2) : Except BadAlloc (List α)) with
    | Except.error e => Outcome.threw e v
    | Except.ok temp =>
      let temp := FillWithDefaultLoop temp 0 (v.capacity_ * 2)
      let tmp : SimpleVector α := { (mkDefault : SimpleVector α) with items_ := temp }
      let moved := stdMove v.items_ v.begin pos tmp.items_ tmp.begin
      let tmp := { tmp with items_ := ArrayPtr.assign moved.2 npos value }
      let moved := stdMove moved.1 pos v.cend tmp.items_ (tmp.begin + npos + 1)
      let size := v.size_ + 1
      let tmp := { items_ := moved.2, size_ := size, capacity_ := v.capacity_ * 2 }
      let this := ({ v with items_ := moved.1, size_ := size }.swap tmp).1
      Outcome.returned (this.begin + npos) this

/-- The member `PushBack(Type&& item)` with an allocator that can refuse. -/
def PushBackMoveE (mem : Nat → Bool) (v : SimpleVector α) (item : α) : Outcome α Unit :=
  match v.InsertMoveE mem v.cend item with
  | Outcome.threw e w => Outcome.threw e w
  | Outcome.returned _ w => Outcome.returned () w

end SimpleVector

/-! ## Buffer primitives -/

namespace ArrayPtr

variable {α : Type} [Elem α]

theorem length_create (n : Nat) : (create n : List α).length = n := by
  simp [create]

theorem index_create (n i : Nat) : index (create n : List α) i = Elem.dflt := by
  simp only [index, create, List.getD_eq_getElem?_getD, List.getElem?_replicate]
  split <;> rfl

theorem length_assign (p : List α) (j : Nat) (x : α) : (assign p j x).length = p.length := by
  simp [assign]

theorem index_assign (p : List α) (j : Nat) (x : α) (i : Nat) :
    index (assign p j x) i = if i = j ∧ j < p.length then x else index p i := by
  simp only [index, assign, List.getD_eq_getElem?_getD, List.getElem?_set]
  by_cases h : j = i
  · subst h
    by_cases h2 : j < p.length
    · simp [h2]
    · simp [h2, List.getElem?_eq_none (Nat.le_of_not_lt h2)]
  · have h3 : ¬ i = j := fun e => h e.symm
    simp [h, h3]

theorem index_of_length_le (p : List α) (i : Nat) (h : p.length ≤ i) :
    index p i = Elem.dflt := by
  simp [index, List.getD_eq_getElem?_getD, List.getElem?_eq_none h]

theorem getElem?_eq_index (p : List α) (i : Nat) (h : i < p.length) :
    p[i]? = some (index p i) := by
  simp [index, List.getD_eq_getElem?_getD, List.getElem?_eq_getElem h]

end ArrayPtr

section StdAlgorithmLemmas

variable {α : Type} [Elem α]

open ArrayPtr

theorem length_stdCopyLoop (src : List α) (n : Nat) : ∀ (dst : List α) (f d : Nat),
    (stdCopyLoop src dst f d n).length = dst.length := by
  induction n with
  | zero => intro dst f d; rfl
  | succ n ih => intro dst f d; simp [stdCopyLoop, ih, length_assign]

theorem index_stdCopyLoop (src : List α) (n : Nat) : ∀ (dst : List α) (f d i : Nat),
    index (stdCopyLoop src dst f d n) i =
      if d ≤ i ∧ i < d + n ∧ i < dst.length then index src (f + (i - d)) else index dst i := by
  induction n with
  | zero =>
    intro dst f d i
    have : ¬ (d ≤ i ∧ i < d + 0 ∧ i < dst.length) := by omega
    simp only [stdCopyLoop]
    exact (if_neg this).symm
  | succ n ih =>
    intro dst f d i
    simp only [stdCopyLoop, ih, length_assign, index_assign]
    by_cases h1 : d + 1 ≤ i ∧ i < d + 1 + n ∧ i < dst.length
    · have h2 : d ≤ i ∧ i < d + (n + 1) ∧ i < dst.length := by omega
      have h3 : f + 1 + (i - (d + 1)) = f + (i - d) := by omega
      simp [h1, h2, h3]
    · by_cases h4 : i = d ∧ d < dst.length
      · have h2 : d ≤ i ∧ i < d + (n + 1) ∧ i < dst.length := by omega
        have h3 : f + (i - d) = f := by omega
        simp [h1, h2, h4, h3]
      · have h2 : ¬ (d ≤ i ∧ i < d + (n + 1) ∧ i < dst.length) := by omega
        simp [h1, h2, h4]

theorem length_stdMoveLoop_fst (n : Nat) : ∀ (src dst : List α) (f d : Nat),
    (stdMoveLoop src dst f d n).1.length = src.length := by
  induction n with
  | zero => intro src dst f d; rfl
  | succ n ih => intro src dst f d; simp [stdMoveLoop, ih, length_assign]

theorem length_stdMoveLoop_snd (n : Nat) : ∀ (src dst : List α) (f d : Nat),
    (stdMoveLoop src dst f d n).2.length = dst.length := by
  induction n with
  | zero => intro src dst f d; rfl
  | succ n ih => intro src dst f d; simp [stdMoveLoop, ih, length_assign]

theorem index_stdMoveLoop_fst (n : Nat) : ∀ (src dst : List α) (f d i : Nat),
    index (stdMoveLoop src dst f d n).1 i =
      if f ≤ i ∧ i < f + n ∧ i < src.length then Elem.movedFrom (index src i)
      else index src i := by
  induction n with
  | zero =>
    intro src dst f d i
    have : ¬ (f ≤ i ∧ i < f + 0 ∧ i < src.length) := by omega
    simp only [stdMoveLoop]
    exact (if_neg this).symm
  | succ n ih =>
    intro src dst f d i
    simp only [stdMoveLoop, ih, length_assign, index_assign]
    by_cases h1 : f + 1 ≤ i ∧ i < f + 1 + n ∧ i < src.length
    · have h2 : f ≤ i ∧ i < f + (n + 1) ∧ i < src.length := by omega
      have h3 : ¬ (i = f ∧ f < src.length) := by omega
      simp [h1, h2, h3]
    · by_cases h4 : i = f ∧ f < src.length
      · have h2 : f ≤ i ∧ i < f + (n + 1) ∧ i < src.length := by omega
        obtain ⟨h5, h6⟩ := h4
        subst h5
        simp [h1, h2, h6]
      · have h2 : ¬ (f ≤ i ∧ i < f + (n + 1) ∧ i < src.length) := by omega
        simp [h1, h2, h4]

theorem index_stdMoveLoop_snd (n : Nat) : ∀ (src dst : List α) (f d i : Nat),
    index (stdMoveLoop src dst f d n).2 i =
      if d ≤ i ∧ i < d + n ∧ i < dst.length then index src (f + (i - d)) else index dst i := by
  induction n with
  | zero =>
    intro src dst f d i
    have : ¬ (d ≤ i ∧ i < d + 0 ∧ i < dst.length) := by omega
    simp only [stdMoveLoop]
    exact (if_neg this).symm
  | succ n ih =>
    intro src dst f d i
    simp only [stdMoveLoop, ih, length_assign, index_assign]
    by_cases h1 : d + 1 ≤ i ∧ i < d + 1 + n ∧ i < dst.length
    · have h2 : d ≤ i ∧ i < d + (n + 1) ∧ i < dst.length := by omega
      have h3 : f + 1 + (i - (d + 1)) = f + (i - d) := by omega
      have h5 : i - d ≠ 0 := by omega
      simp [h1, h2, h3, h5]
    · by_cases h4 : i = d ∧ d < dst.length
      · have h2 : d ≤ i ∧ i < d + (n + 1) ∧ i < dst.length := by omega
        have h3 : f + (i - d) = f := by omega
        simp [h1, h2, h4, h3]
      · have h2 : ¬ (d ≤ i ∧ i < d + (n + 1) ∧ i < dst.length) := by omega
        simp [h1, h2, h4]

end StdAlgorithmLemmas

namespace SimpleVector

variable {α : Type} [Elem α]

open ArrayPtr

theorem length_FillLoop (n : Nat) : ∀ (buf : List α) (f : Nat) (x : α),
    (FillLoop buf f x n).length = buf.length := by
  induction n with
  | zero => intro buf f x; rfl
  | succ n ih => intro buf f x; simp [FillLoop, ih, length_assign]

theorem length_FillWithDefaultLoop (n : Nat) : ∀ (buf : List α) (f : Nat),
    (FillWithDefaultLoop buf f n).length = buf.length := by
  induction n with
  | zero => intro buf f; rfl
  | succ n ih => intro buf f; simp [FillWithDefaultLoop, ih, length_assign]

theorem index_FillWithDefaultLoop (n : Nat) : ∀ (buf : List α) (f i : Nat),
    ArrayPtr.index (FillWithDefaultLoop buf f n) i =
      if f ≤ i ∧ i < f + n then Elem.dflt else ArrayPtr.index buf i := by
  induction n with
  | zero =>
    intro buf f i
    have : ¬ (f ≤ i ∧ i < f + 0) := by omega
    simp only [FillWithDefaultLoop]
    exact (if_neg this).symm
  | succ n ih =>
    intro buf f i
    simp only [FillWithDefaultLoop, ih, index_assign]
    by_cases h1 : f + 1 ≤ i ∧ i < f + 1 + n
    · have h2 : f ≤ i ∧ i < f + (n + 1) := by omega
      simp [h1, h2]
    · by_cases h4 : i = f
      · have h2 : f ≤ i ∧ i < f + (n + 1) := by omega
        subst h4
        by_cases h5 : i < buf.length
        · simp [h2, h5]
        · simp [h2, h5, index_of_length_le buf i (Nat.le_of_not_lt h5)]
      · have h2 : ¬ (f ≤ i ∧ i < f + (n + 1)) := by omega
        simp [h1, h2, h4]

end SimpleVector

/-! ## Live elements and the invariants -/

namespace SimpleVector

variable {α : Type} [Elem α]

open ArrayPtr

@[simp] theorem begin_eq (v : SimpleVector α) : v.begin = 0 := rfl

@[simp] theorem cend_eq (v : SimpleVector α) : v.cend = v.size_ := by
  simp [cend]

theorem length_toList (v : SimpleVector α) : v.toList.length = v.size_ := by
  simp [toList]

theorem getElem?_toList (v : SimpleVector α) (i : Nat) (h : i < v.size_) :
    v.toList[i]? = some (v.index i) := by
  simp [toList, List.getElem?_map, List.getElem?_range h]

theorem toList_eq_of (v : SimpleVector α) (l : List α) (hlen : l.length = v.size_)
    (h : ∀ i, i < v.size_ → l[i]? = some (v.index i)) : v.toList = l := by
  apply List.ext_getElem?
  intro i
  by_cases hi : i < v.size_
  · rw [getElem?_toList v i hi, h i hi]
  · rw [List.getElem?_eq_none (by rw [length_toList]; omega),
      List.getElem?_eq_none (by omega)]

theorem toList_congr (v w : SimpleVector α) (hs : v.size_ = w.size_)
    (h : ∀ i, i < v.size_ → v.index i = w.index i) : v.toList = w.toList := by
  apply toList_eq_of
  · rw [length_toList, hs]
  · intro i hi
    rw [getElem?_toList w i (by omega), h i hi]

theorem Resize_shrink (v : SimpleVector α) (m : Nat) (h1 : m < v.size_)
    (h2 : m ≤ v.capacity_) :
    v.Resize m = { items_ := FillWithDefault v.items_ m m, size_ := m,
                   capacity_ := v.capacity_ } := by
  have h3 : ¬ v.capacity_ < m := by omega
  unfold Resize
  simp [h1, h2, h3]

theorem Resize_within (v : SimpleVector α) (m : Nat) (h1 : ¬ m < v.size_)
    (h2 : m ≤ v.capacity_) :
    v.Resize m = { items_ := FillWithDefault v.items_ v.size_ m, size_ := m,
                   capacity_ := v.capacity_ } := by
  have h3 : ¬ v.capacity_ < m := by omega
  unfold Resize
  simp [h1, h2, h3]

theorem Resize_grow (v : SimpleVector α) (m : Nat) (h1 : ¬ m < v.size_)
    (h2 : ¬ m ≤ v.capacity_) :
    v.Resize m =
      { items_ := (stdMove v.items_ 0 v.size_
          (FillWithDefault (create (max m (v.capacity_ * 2))) v.capacity_ m) 0).2,
        size_ := m, capacity_ := max m (v.capacity_ * 2) } := by
  have h3 : v.capacity_ < m := by omega
  unfold Resize
  simp [h1, h2, h3]

theorem Resize_size (v : SimpleVector α) (m : Nat) : (v.Resize m).size_ = m := by
  have e1 : ∀ w : SimpleVector α,
      (if m < w.size_ then { w with size_ := m } else w).capacity_ = w.capacity_ := by
    intro w; split <;> rfl
  unfold Resize
  by_cases h2 : m ≤ v.capacity_
  · have h3 : ¬ v.capacity_ < m := by omega
    simp [e1, h2, h3]
  · have h3 : v.capacity_ < m := by omega
    simp [e1, h2, h3]

theorem Resize_capacity (v : SimpleVector α) (m : Nat) (hv : v.Valid) :
    (v.Resize m).capacity_ = if m ≤ v.capacity_ then v.capacity_ else max m (v.capacity_ * 2) := by
  obtain ⟨hs, _⟩ := hv
  by_cases h2 : m ≤ v.capacity_
  · by_cases h1 : m < v.size_
    · rw [Resize_shrink v m h1 h2, if_pos h2]
    · rw [Resize_within v m h1 h2, if_pos h2]
  · have h1 : ¬ m < v.size_ := by omega
    rw [Resize_grow v m h1 h2, if_neg h2]

theorem Resize_items_length (v : SimpleVector α) (m : Nat) (hv : v.Valid) :
    (v.Resize m).items_.length = (v.Resize m).capacity_ := by
  obtain ⟨hs, hc⟩ := hv
  by_cases h2 : m ≤ v.capacity_
  · by_cases h1 : m < v.size_
    · rw [Resize_shrink v m h1 h2]
      simp [FillWithDefault, length_FillWithDefaultLoop, hc]
    · rw [Resize_within v m h1 h2]
      simp [FillWithDefault, length_FillWithDefaultLoop, hc]
  · have h1 : ¬ m < v.size_ := by omega
    rw [Resize_grow v m h1 h2]
    simp [FillWithDefault, stdMove, length_FillWithDefaultLoop, length_stdMoveLoop_snd,
      length_create]

theorem Resize_valid (v : SimpleVector α) (m : Nat) (hv : v.Valid) : (v.Resize m).Valid := by
  refine ⟨?_, (Resize_items_length v m hv).symm⟩
  rw [Resize_size, Resize_capacity v m hv]
  split <;> omega

theorem Resize_index_old (v : SimpleVector α) (m : Nat) (hv : v.Valid) (i : Nat)
    (h1 : i < v.size_) (h2 : i < m) : (v.Resize m).index i = v.index i := by
  obtain ⟨hs, hc⟩ := hv
  by_cases c2 : m ≤ v.capacity_
  · by_cases c1 : m < v.size_
    · have : ¬ (m ≤ i ∧ i < m + (m - m)) := by omega
      rw [Resize_shrink v m c1 c2]
      simp only [index, FillWithDefault, index_FillWithDefaultLoop]
      rw [if_neg this]
    · have : ¬ (v.size_ ≤ i ∧ i < v.size_ + (m - v.size_)) := by omega
      rw [Resize_within v m c1 c2]
      simp only [index, FillWithDefault, index_FillWithDefaultLoop]
      rw [if_neg this]
  · have c1 : ¬ m < v.size_ := by omega
    have h3 : 0 ≤ i ∧ i < 0 + (v.size_ - 0) ∧
        i < (FillWithDefaultLoop (create (max m (v.capacity_ * 2)) : List α) v.capacity_
          (m - v.capacity_)).length := by
      rw [length_FillWithDefaultLoop, length_create]
      omega
    rw [Resize_grow v m c1 c2]
    simp only [index, FillWithDefault, stdMove, index_stdMoveLoop_snd]
    rw [if_pos h3]
    simp

theorem Resize_index_new (v : SimpleVector α) (m : Nat) (hv : v.Valid) (i : Nat)
    (h1 : v.size_ ≤ i) (h2 : i < m) : (v.Resize m).index i = Elem.dflt := by
  obtain ⟨hs, hc⟩ := hv
  by_cases c2 : m ≤ v.capacity_
  · have c1 : ¬ m < v.size_ := by omega
    have : v.size_ ≤ i ∧ i < v.size_ + (m - v.size_) := by omega
    rw [Resize_within v m c1 c2]
    simp only [index, FillWithDefault, index_FillWithDefaultLoop]
    rw [if_pos this]
  · have c1 : ¬ m < v.size_ := by omega
    have h3 : ¬ (0 ≤ i ∧ i < 0 + (v.size_ - 0) ∧
        i < (FillWithDefaultLoop (create (max m (v.capacity_ * 2)) : List α) v.capacity_
          (m - v.capacity_)).length) := by
      omega
    rw [Resize_grow v m c1 c2]
    simp only [index, FillWithDefault, stdMove, index_stdMoveLoop_snd]
    rw [if_neg h3]
    simp only [index_FillWithDefaultLoop, index_create]
    split <;> rfl

end SimpleVector

/-! ## PushBack -/

namespace SimpleVector

variable {α : Type} [Elem α]

open ArrayPtr

theorem toList_push (v w : SimpleVector α) (x : α) (hs : w.size_ = v.size_ + 1)
    (hold : ∀ i, i < v.size_ → w.index i = v.index i) (hnew : w.index v.size_ = x) :
    w.toList = v.toList ++ [x] := by
  apply toList_eq_of
  · simp [length_toList, hs]
  · intro i hi
    by_cases h : i < v.size_
    · rw [List.getElem?_append_left (by rw [length_toList]; exact h), getElem?_toList v i h,
        hold i h]
    · have e : i = v.size_ := by omega
      subst e
      rw [List.getElem?_append_right (by rw [length_toList]), length_toList, hnew]
      simp

theorem PushBack_spec (v : SimpleVector α) (item : α) (hv : v.Valid) :
    (v.PushBack item).Valid ∧ (v.PushBack item).size_ = v.size_ + 1 ∧
      (∀ i, i < v.size_ → (v.PushBack item).index i = v.index i) ∧
      (v.PushBack item).index v.size_ = item := by
  obtain ⟨hs, hc⟩ := hv
  by_cases h : v.size_ < v.capacity_
  · have e : v.PushBack item =
        { items_ := assign v.items_ (v.size_ + 1 - 1) item, size_ := v.size_ + 1,
          capacity_ := v.capacity_ } := by
      unfold PushBack; simp [h]
    rw [e]
    refine ⟨⟨by simpa using h, by simp [length_assign, hc]⟩, rfl, ?_, ?_⟩
    · intro i hi
      have : ¬ (i = v.size_ + 1 - 1 ∧ v.size_ + 1 - 1 < v.items_.length) := by omega
      simp only [index, index_assign]
      rw [if_neg this]
    · have : v.size_ = v.size_ + 1 - 1 ∧ v.size_ + 1 - 1 < v.items_.length := by omega
      simp only [index, index_assign]
      rw [if_pos this]
  · have e : v.PushBack item =
        { items_ := assign (v.Resize (v.size_ + 1)).items_ ((v.Resize (v.size_ + 1)).size_ - 1) item,
          size_ := (v.Resize (v.size_ + 1)).size_,
          capacity_ := (v.Resize (v.size_ + 1)).capacity_ } := by
      unfold PushBack; simp [h]
    have hw := Resize_valid v (v.size_ + 1) ⟨hs, hc⟩
    have hsz := Resize_size v (v.size_ + 1)
    obtain ⟨hw1, hw2⟩ := hw
    rw [e]
    refine ⟨⟨hw1, by simp [length_assign, hw2]⟩, hsz, ?_, ?_⟩
    · intro i hi
      have : ¬ (i = (v.Resize (v.size_ + 1)).size_ - 1 ∧
          (v.Resize (v.size_ + 1)).size_ - 1 < (v.Resize (v.size_ + 1)).items_.length) := by
        omega
      simp only [index, index_assign]
      rw [if_neg this]
      exact Resize_index_old v (v.size_ + 1) ⟨hs, hc⟩ i hi (by omega)
    · have : v.size_ = (v.Resize (v.size_ + 1)).size_ - 1 ∧
          (v.Resize (v.size_ + 1)).size_ - 1 < (v.Resize (v.size_ + 1)).items_.length := by
        omega
      simp only [index, index_assign]
      rw [if_pos this]

theorem InsertMove_empty (v : SimpleVector α) (pos : Nat) (value : α) (h : v.capacity_ = 0) :
    v.InsertMove pos value =
      (pos, { items_ := assign (create 1) 0 value, size_ := 1, capacity_ := 1 }) := by
  unfold InsertMove
  simp [h]

theorem InsertMove_inplace (v : SimpleVector α) (pos : Nat) (value : α) (h0 : v.capacity_ ≠ 0)
    (h : v.size_ < v.capacity_) :
    v.InsertMove pos value =
      (pos, { items_ := assign (stdMoveSelf v.items_ pos v.size_ (pos + 1)) pos value,
              size_ := v.size_ + 1, capacity_ := v.capacity_ }) := by
  unfold InsertMove
  simp [h0, h]

theorem InsertMove_full (v : SimpleVector α) (pos : Nat) (value : α) (h0 : v.capacity_ ≠ 0)
    (h : ¬ v.size_ < v.capacity_) :
    v.InsertMove pos value =
      (pos,
       { items_ :=
           (stdMove
             (stdMove v.items_ 0 pos
               (FillWithDefaultLoop (create (v.capacity_ * 2)) 0 (v.capacity_ * 2)) 0).1
             pos v.size_
             (assign
               (stdMove v.items_ 0 pos
                 (FillWithDefaultLoop (create (v.capacity_ * 2)) 0 (v.capacity_ * 2)) 0).2
               pos value)
             (pos + 1)).2,
         size_ := v.size_ + 1, capacity_ := v.capacity_ * 2 }) := by
  unfold InsertMove
  simp [h0, h, swap, mkDefault]

theorem PushBackMove_spec (v : SimpleVector α) (item : α) (hv : v.Valid) :
    (v.PushBackMove item).Valid ∧ (v.PushBackMove item).size_ = v.size_ + 1 ∧
      (∀ i, i < v.size_ → (v.PushBackMove item).index i = v.index i) ∧
      (v.PushBackMove item).index v.size_ = item := by
  obtain ⟨hs, hc⟩ := hv
  unfold PushBackMove
  by_cases h0 : v.capacity_ = 0
  · have hsz : v.size_ = 0 := by omega
    rw [InsertMove_empty v _ item h0, hsz]
    refine ⟨⟨by simp, by simp [length_assign, length_create]⟩, rfl, ?_, ?_⟩
    · intro i hi; omega
    · simp [index, index_assign, length_create]
  · by_cases h : v.size_ < v.capacity_
    · have e : stdMoveSelf v.items_ v.cend v.size_ (v.cend + 1) = v.items_ := by
        simp [stdMoveSelf, stdMoveSelfLoop]
      rw [InsertMove_inplace v _ item h0 h, e]
      refine ⟨⟨by simpa using h, by simp [length_assign, hc]⟩, rfl, ?_, ?_⟩
      · intro i hi
        have : ¬ (i = v.cend ∧ v.cend < v.items_.length) := by rw [cend_eq]; omega
        show ArrayPtr.index (assign v.items_ v.cend item) i = _
        rw [index_assign, if_neg this]
        rfl
      · have : v.size_ = v.cend ∧ v.cend < v.items_.length := by rw [cend_eq]; omega
        show ArrayPtr.index (assign v.items_ v.cend item) v.size_ = _
        rw [index_assign, if_pos this]
    · have e : ∀ (src dst : List α), (stdMove src v.cend v.size_ dst (v.cend + 1)).2 = dst := by
        intro src dst
        simp [stdMove, stdMoveLoop]
      have hl : (stdMove v.items_ 0 v.cend
          (FillWithDefaultLoop (create (v.capacity_ * 2)) 0 (v.capacity_ * 2)) 0).2.length
            = v.capacity_ * 2 := by
        simp [stdMove, length_stdMoveLoop_snd, length_FillWithDefaultLoop, length_create]
      rw [InsertMove_full v _ item h0 h, e]
      refine ⟨⟨by simp; omega, by rw [length_assign, hl]⟩, rfl, ?_, ?_⟩
      · intro i hi
        have h1 : ¬ (i = v.cend ∧ v.cend < (stdMove v.items_ 0 v.cend
            (FillWithDefaultLoop (create (v.capacity_ * 2)) 0 (v.capacity_ * 2)) 0).2.length) := by
          rw [cend_eq]; omega
        have h2 : 0 ≤ i ∧ i < 0 + (v.cend - 0) ∧
            i < (FillWithDefaultLoop (create (v.capacity_ * 2) : List α) 0
              (v.capacity_ * 2)).length := by
          rw [length_FillWithDefaultLoop, length_create, cend_eq]; omega
        show ArrayPtr.index (assign _ v.cend item) i = _
        rw [index_assign, if_neg h1, stdMove, index_stdMoveLoop_snd, if_pos h2]
        simp [index]
      · have h1 : v.size_ = v.cend ∧ v.cend < (stdMove v.items_ 0 v.cend
            (FillWithDefaultLoop (create (v.capacity_ * 2)) 0 (v.capacity_ * 2)) 0).2.length := by
          rw [hl, cend_eq]; omega
        show ArrayPtr.index (assign _ v.cend item) v.size_ = _
        rw [index_assign, if_pos h1]

end SimpleVector

/-! ## Moves inside one buffer -/

section StdMoveSelfLemmas

variable {α : Type} [Elem α]

open ArrayPtr

theorem length_stdMoveSelfLoop (n : Nat) : ∀ (buf : List α) (f d : Nat),
    (stdMoveSelfLoop buf f d n).length = buf.length := by
  induction n with
  | zero => intro buf f d; rfl
  | succ n ih => intro buf f d; simp [stdMoveSelfLoop, ih, length_assign]

/-- A move to the left by one slot (`d_first = first - 1`): every element of the range lands
one slot lower, and the last slot of the range is left moved-from. -/
theorem index_stdMoveSelfLoop_left (n : Nat) : ∀ (buf : List α) (k i : Nat),
    k + n < buf.length →
    index (stdMoveSelfLoop buf (k + 1) k n) i =
      if k ≤ i ∧ i < k + n then index buf (i + 1)
      else if i = k + n ∧ 0 < n then Elem.movedFrom (index buf (k + n))
      else index buf i := by
  induction n with
  | zero =>
    intro buf k i _
    have h1 : ¬ (k ≤ i ∧ i < k + 0) := by omega
    have h2 : ¬ (i = k + 0 ∧ 0 < 0) := by omega
    simp only [stdMoveSelfLoop]
    rw [if_neg h1, if_neg h2]
  | succ n ih =>
    intro buf k i hlen
    have hl2 : k + 1 + n < (assign (assign buf k (index buf (k + 1))) (k + 1)
        (Elem.movedFrom (index buf (k + 1)))).length := by
      rw [length_assign, length_assign]; omega
    simp only [stdMoveSelfLoop]
    rw [ih _ (k + 1) i hl2]
    simp only [index_assign, length_assign]
    by_cases c1 : k + 1 ≤ i ∧ i < k + 1 + n
    · have g1 : k ≤ i ∧ i < k + (n + 1) := by omega
      have g2 : ¬ (i + 1 = k + 1 ∧ k + 1 < buf.length) := by omega
      have g3 : ¬ (i + 1 = k ∧ k < buf.length) := by omega
      rw [if_pos c1, if_pos g1, if_neg g2, if_neg g3]
    · rw [if_neg c1]
      by_cases c2 : i = k + 1 + n ∧ 0 < n
      · have g1 : ¬ (k ≤ i ∧ i < k + (n + 1)) := by omega
        have g2 : i = k + (n + 1) ∧ 0 < n + 1 := by omega
        have g3 : ¬ (k + 1 + n = k + 1 ∧ k + 1 < buf.length) := by omega
        have g4 : ¬ (k + 1 + n = k ∧ k < buf.length) := by omega
        have g5 : k + 1 + n = k + (n + 1) := by omega
        rw [if_pos c2, if_neg g1, if_pos g2, if_neg g3, if_neg g4, g5]
      · rw [if_neg c2]
        by_cases c3 : i = k + 1 ∧ k + 1 < buf.length
        · have g1 : ¬ (k ≤ i ∧ i < k + (n + 1)) := by omega
          have g2 : i = k + (n + 1) ∧ 0 < n + 1 := by omega
          have g5 : k + (n + 1) = k + 1 := by omega
          rw [if_pos c3, if_neg g1, if_pos g2, g5]
        · rw [if_neg c3]
          by_cases c4 : i = k ∧ k < buf.length
          · have g1 : k ≤ i ∧ i < k + (n + 1) := by omega
            rw [if_pos c4, if_pos g1, c4.1]
          · have g1 : ¬ (k ≤ i ∧ i < k + (n + 1)) := by omega
            have g2 : ¬ (i = k + (n + 1) ∧ 0 < n + 1) := by omega
            rw [if_neg c4, if_neg g1, if_neg g2]

end StdMoveSelfLemmas

/-! ## Erase, Reserve and the remaining operations -/

namespace SimpleVector

variable {α : Type} [Elem α]

open ArrayPtr

theorem Erase_nonempty (v : SimpleVector α) (pos : Nat) (h : v.size_ ≠ 0) :
    v.Erase pos =
      (pos, { items_ := stdMoveSelf v.items_ (pos + 1) v.size_ pos, size_ := v.size_ - 1,
              capacity_ := v.capacity_ }) := by
  unfold Erase
  simp [IsEmpty, h]

theorem Erase_empty (v : SimpleVector α) (pos : Nat) (h : v.size_ = 0) :
    v.Erase pos = (pos, v) := by
  unfold Erase
  simp [IsEmpty, h]

theorem Erase_index (v : SimpleVector α) (k i : Nat) (hv : v.Valid) (hk : k < v.size_)
    (hi : i < v.size_ - 1) :
    (v.Erase k).2.index i = if i < k then v.index i else v.index (i + 1) := by
  obtain ⟨hs, hc⟩ := hv
  have hlen : k + (v.size_ - (k + 1)) < v.items_.length := by omega
  rw [Erase_nonempty v k (by omega)]
  show ArrayPtr.index (stdMoveSelf v.items_ (k + 1) v.size_ k) i = _
  rw [stdMoveSelf, index_stdMoveSelfLoop_left _ _ _ _ hlen]
  by_cases c : i < k
  · have g1 : ¬ (k ≤ i ∧ i < k + (v.size_ - (k + 1))) := by omega
    have g2 : ¬ (i = k + (v.size_ - (k + 1)) ∧ 0 < v.size_ - (k + 1)) := by omega
    rw [if_neg g1, if_neg g2, if_pos c]
    rfl
  · have g1 : k ≤ i ∧ i < k + (v.size_ - (k + 1)) := by omega
    rw [if_pos g1, if_neg c]
    rfl

theorem Erase_toList (v : SimpleVector α) (k : Nat) (hv : v.Valid) (hk : k < v.size_) :
    (v.Erase k).2.toList = v.toList.eraseIdx k := by
  have hsz : (v.Erase k).2.size_ = v.size_ - 1 := by
    rw [Erase_nonempty v k (by omega)]
  apply toList_eq_of
  · rw [List.length_eraseIdx, length_toList, if_pos hk, hsz]
  · intro i hi
    rw [hsz] at hi
    rw [List.getElem?_eraseIdx, Erase_index v k i hv hk hi]
    by_cases c : i < k
    · rw [if_pos c, if_pos c, getElem?_toList v i (by omega)]
    · rw [if_neg c, if_neg c, getElem?_toList v (i + 1) (by omega)]

theorem Erase_valid (v : SimpleVector α) (pos : Nat) (hv : v.Valid) : (v.Erase pos).2.Valid := by
  obtain ⟨hs, hc⟩ := hv
  by_cases h : v.size_ = 0
  · rw [Erase_empty v pos h]; exact ⟨hs, hc⟩
  · rw [Erase_nonempty v pos h]
    exact ⟨by simp only; omega, by simp [stdMoveSelf, length_stdMoveSelfLoop, hc]⟩

theorem Reserve_noop (v : SimpleVector α) (m : Nat) (h : m ≤ v.capacity_) : v.Reserve m = v := by
  have : ¬ v.capacity_ < m := by omega
  unfold Reserve
  simp [this]

theorem Reserve_grow (v : SimpleVector α) (m : Nat) (h : v.capacity_ < m) :
    v.Reserve m =
      { items_ := (stdMove v.items_ 0 v.size_ (create m) 0).2, size_ := v.size_,
        capacity_ := m } := by
  unfold Reserve
  simp [h]

theorem Reserve_valid (v : SimpleVector α) (m : Nat) (hv : v.Valid) : (v.Reserve m).Valid := by
  obtain ⟨hs, hc⟩ := hv
  by_cases h : v.capacity_ < m
  · rw [Reserve_grow v m h]
    exact ⟨by simp only; omega, by simp [stdMove, length_stdMoveLoop_snd, length_create]⟩
  · rw [Reserve_noop v m (by omega)]; exact ⟨hs, hc⟩

theorem Reserve_index (v : SimpleVector α) (m i : Nat) (hv : v.Valid) (hi : i < v.size_) :
    (v.Reserve m).index i = v.index i := by
  obtain ⟨hs, hc⟩ := hv
  by_cases h : v.capacity_ < m
  · have g : 0 ≤ i ∧ i < 0 + (v.size_ - 0) ∧ i < (create m : List α).length := by
      rw [length_create]; omega
    rw [Reserve_grow v m h]
    show ArrayPtr.index (stdMove v.items_ 0 v.size_ (create m) 0).2 i = _
    rw [stdMove, index_stdMoveLoop_snd, if_pos g]
    simp [index]
  · rw [Reserve_noop v m (by omega)]

theorem mkDefault_valid : (mkDefault : SimpleVector α).Valid := by
  simp [Valid, mkDefault, ArrayPtr.empty]

theorem mkSize_valid (n : Nat) : (mkSize n : SimpleVector α).Valid := by
  simp [Valid, mkSize, Fill, length_FillLoop, length_create]

theorem mkSizeValue_valid (n : Nat) (x : α) : (mkSizeValue n x).Valid := by
  simp [Valid, mkSizeValue, Fill, length_FillLoop, length_create]

theorem mkInit_valid (init : List α) : (mkInit init).Valid := by
  simp [Valid, mkInit, stdCopy, length_stdCopyLoop, length_create]

theorem mkReserve_valid (n : Nat) : (mkReserve n : SimpleVector α).Valid := by
  simp [Valid, mkReserve, length_create]

theorem mkCopy_valid (other : SimpleVector α) : (mkCopy other).Valid := by
  unfold mkCopy
  by_cases h : other.size_ = 0
  · simp [Valid, GetSize, mkDefault, h, stdCopy, stdCopyLoop, ArrayPtr.empty]
  · have h2 : 0 < other.size_ := by omega
    simp [Valid, GetSize, mkDefault, h, h2, swap, mkSize, stdCopy, length_stdCopyLoop, Fill,
      length_FillLoop, length_create]

theorem mkMove_valid (other : SimpleVector α) (hv : other.Valid) :
    (mkMove other).1.Valid ∧ (mkMove other).2.Valid := by
  obtain ⟨hs, hc⟩ := hv
  unfold mkMove
  refine ⟨⟨by simpa [GetSize, GetCapacity] using hs, ?_⟩, ⟨by simp [Clear], ?_⟩⟩
  · simp [GetCapacity, stdMove, length_stdMoveLoop_snd, length_create]
  · simp [Clear, stdMove, length_stdMoveLoop_fst, hc]

theorem copyAssign_valid (v rhs : SimpleVector α) : (copyAssign v rhs).Valid := by
  unfold copyAssign
  exact mkCopy_valid rhs

theorem PopBack_valid (v w : SimpleVector α) (hv : v.Valid) (h : v.PopBack = some w) :
    w.Valid := by
  obtain ⟨hs, hc⟩ := hv
  unfold PopBack at h
  by_cases c : v.size_ > 0
  · rw [if_pos c] at h
    injection h with h
    subst h
    exact ⟨by simp only; omega, hc⟩
  · rw [if_neg c] at h
    cases h

theorem Clear_valid (v : SimpleVector α) (hv : v.Valid) : v.Clear.Valid := by
  obtain ⟨_, hc⟩ := hv
  exact ⟨by simp [Clear], hc⟩

theorem Insert_empty (v : SimpleVector α) (pos : Nat) (value : α) (h : v.capacity_ = 0) :
    v.Insert pos value =
      (pos, { items_ := assign (mkSize 1).items_ 0 value, size_ := 1, capacity_ := 1 }) := by
  unfold Insert
  simp [h, swap, mkSize]

theorem Insert_inplace (v : SimpleVector α) (pos : Nat) (value : α) (h0 : v.capacity_ ≠ 0)
    (h : v.size_ < v.capacity_) :
    v.Insert pos value =
      (pos, { items_ := assign (stdMoveSelf v.items_ pos v.size_ (pos + 1)) pos value,
              size_ := v.size_ + 1, capacity_ := v.capacity_ }) := by
  unfold Insert
  simp [h0, h]

theorem Insert_full (v : SimpleVector α) (pos : Nat) (value : α) (h0 : v.capacity_ ≠ 0)
    (h : ¬ v.size_ < v.capacity_) :
    v.Insert pos value =
      (pos,
       { items_ :=
           stdCopy v.items_ pos v.size_
             (assign
               (stdCopy v.items_ 0 pos ((mkSize (v.capacity_ * 2)).Resize (v.size_ + 1)).items_ 0)
               pos value)
             (pos + 1),
         size_ := ((mkSize (v.capacity_ * 2) : SimpleVector α).Resize (v.size_ + 1)).size_,
         capacity_ :=
           ((mkSize (v.capacity_ * 2) : SimpleVector α).Resize (v.size_ + 1)).capacity_ }) := by
  unfold Insert
  simp [h0, h, swap]

theorem Insert_valid (v : SimpleVector α) (pos : Nat) (value : α) (hv : v.Valid) :
    (v.Insert pos value).2.Valid := by
  obtain ⟨hs, hc⟩ := hv
  by_cases h0 : v.capacity_ = 0
  · rw [Insert_empty v pos value h0]
    exact ⟨by simp, by simp [length_assign, mkSize, Fill, length_FillLoop, length_create]⟩
  · by_cases h : v.size_ < v.capacity_
    · rw [Insert_inplace v pos value h0 h]
      exact ⟨by simpa using h, by simp [length_assign, stdMoveSelf, length_stdMoveSelfLoop, hc]⟩
    · rw [Insert_full v pos value h0 h]
      obtain ⟨t1, t2⟩ := Resize_valid (mkSize (v.capacity_ * 2) : SimpleVector α) (v.size_ + 1)
        (mkSize_valid _)
      exact ⟨t1, by simp [stdCopy, length_stdCopyLoop, length_assign, t2]⟩

theorem InsertMove_valid (v : SimpleVector α) (pos : Nat) (value : α) (hv : v.Valid) :
    (v.InsertMove pos value).2.Valid := by
  obtain ⟨hs, hc⟩ := hv
  by_cases h0 : v.capacity_ = 0
  · rw [InsertMove_empty v pos value h0]
    exact ⟨by simp, by simp [length_assign, length_create]⟩
  · by_cases h : v.size_ < v.capacity_
    · rw [InsertMove_inplace v pos value h0 h]
      exact ⟨by simpa using h, by simp [length_assign, stdMoveSelf, length_stdMoveSelfLoop, hc]⟩
    · rw [InsertMove_full v pos value h0 h]
      exact ⟨by simp only; omega,
        by simp [stdMove, length_stdMoveLoop_snd, length_assign, length_FillWithDefaultLoop,
          length_create]⟩

theorem Reachable_valid (v : SimpleVector α) (h : Reachable v) : v.Valid := by
  induction h with
  | mkDefault => exact mkDefault_valid
  | mkSize n => exact mkSize_valid n
  | mkSizeValue n x => exact mkSizeValue_valid n x
  | mkInit l => exact mkInit_valid l
  | mkReserve n => exact mkReserve_valid n
  | mkCopy other _ _ => exact mkCopy_valid other
  | mkMoveNew other _ ih => exact (mkMove_valid other ih).1
  | mkMoveSource other _ ih => exact (mkMove_valid other ih).2
  | copyAssign v rhs _ _ _ _ => exact copyAssign_valid v rhs
  | PushBack v x _ ih => exact (PushBack_spec v x ih).1
  | PushBackMove v x _ ih => exact (PushBackMove_spec v x ih).1
  | Insert v pos x _ _ ih => exact Insert_valid v pos x ih
  | InsertMove v pos x _ _ ih => exact InsertMove_valid v pos x ih
  | PopBack v w _ hw ih => exact PopBack_valid v w ih hw
  | Erase v pos _ _ ih => exact Erase_valid v pos ih
  | swapThis v other _ _ _ ih2 => exact ih2
  | swapOther v other _ _ ih1 _ => exact ih1
  | Clear v _ ih => exact Clear_valid v ih
  | Resize v m _ ih => exact Resize_valid v m ih
  | Reserve v m _ ih => exact Reserve_valid v m ih

end SimpleVector

/-! ## Comparison operators -/

section ComparisonLemmas

variable {α : Type} [Elem α]

open ArrayPtr

theorem stdEqualLoop_iff [BEq α] (a b : List α) (n : Nat) : ∀ (f1 f2 : Nat),
    stdEqualLoop a b f1 f2 n = true ↔
      ∀ j, j < n → (index a (f1 + j) == index b (f2 + j)) = true := by
  induction n with
  | zero => intro f1 f2; simp [stdEqualLoop]
  | succ n ih =>
    intro f1 f2
    simp only [stdEqualLoop]
    by_cases h : (index a f1 == index b f2) = true
    · rw [if_pos h, ih]
      constructor
      · intro H j hj
        cases j with
        | zero => simpa using h
        | succ j =>
          have := H j (by omega)
          have e1 : f1 + (j + 1) = f1 + 1 + j := by omega
          have e2 : f2 + (j + 1) = f2 + 1 + j := by omega
          rw [e1, e2]; exact this
      · intro H j hj
        have := H (j + 1) (by omega)
        have e1 : f1 + (j + 1) = f1 + 1 + j := by omega
        have e2 : f2 + (j + 1) = f2 + 1 + j := by omega
        rw [e1, e2] at this; exact this
    · rw [if_neg h]
      constructor
      · intro H; cases H
      · intro H
        exact absurd (by simpa using H 0 (by omega)) h

theorem stdLexicographicalCompareLoop_iff [LinearOrder α] (a b : List α) (n1 : Nat) :
    ∀ (n2 f1 f2 : Nat),
    stdLexicographicalCompareLoop a b f1 f2 n1 n2 = true ↔
      ((n1 < n2 ∧ ∀ j, j < n1 → index a (f1 + j) = index b (f2 + j)) ∨
       (∃ k, k < n1 ∧ k < n2 ∧ (∀ j, j < k → index a (f1 + j) = index b (f2 + j)) ∧
          index a (f1 + k) < index b (f2 + k))) := by
  induction n1 with
  | zero =>
    intro n2 f1 f2
    simp only [stdLexicographicalCompareLoop]
    constructor
    · intro h
      left
      exact ⟨by simpa [Nat.pos_iff_ne_zero] using h, fun j hj => by omega⟩
    · rintro (⟨h, _⟩ | ⟨k, hk, _⟩)
      · simpa [Nat.pos_iff_ne_zero] using h
      · omega
  | succ n1 ih =>
    intro n2 f1 f2
    cases n2 with
    | zero =>
      simp only [stdLexicographicalCompareLoop]
      constructor
      · intro h; cases h
      · rintro (⟨h, _⟩ | ⟨k, _, hk, _⟩) <;> omega
    | succ n2 =>
      simp only [stdLexicographicalCompareLoop]
      by_cases c1 : index a f1 < index b f2
      · rw [if_pos c1]
        refine ⟨fun _ => Or.inr ⟨0, by omega, by omega, fun j hj => by omega, by simpa using c1⟩,
          fun _ => rfl⟩
      · rw [if_neg c1]
        by_cases c2 : index b f2 < index a f1
        · rw [if_pos c2]
          constructor
          · intro h; cases h
          · rintro (⟨_, h⟩ | ⟨k, _, _, hpre, hlt⟩)
            · have := h 0 (by omega)
              simp only [Nat.add_zero] at this
              rw [this] at c2
              exact absurd c2 (lt_irrefl _)
            · cases k with
              | zero => exact absurd (by simpa using hlt) c1
              | succ k =>
                have := hpre 0 (by omega)
                simp only [Nat.add_zero] at this
                rw [this] at c2
                exact absurd c2 (lt_irrefl _)
        · rw [if_neg c2, ih]
          have e0 : index a f1 = index b f2 :=
            le_antisymm (not_lt.mp c2) (not_lt.mp c1)
          have s1 : ∀ j, f1 + (j + 1) = f1 + 1 + j := fun j => by omega
          have s2 : ∀ j, f2 + (j + 1) = f2 + 1 + j := fun j => by omega
          constructor
          · rintro (⟨hlt, h⟩ | ⟨k, hk1, hk2, hpre, hlt⟩)
            · left
              refine ⟨by omega, fun j hj => ?_⟩
              cases j with
              | zero => simpa using e0
              | succ j => rw [s1, s2]; exact h j (by omega)
            · right
              refine ⟨k + 1, by omega, by omega, fun j hj => ?_, by rw [s1, s2]; exact hlt⟩
              cases j with
              | zero => simpa using e0
              | succ j => rw [s1, s2]; exact hpre j (by omega)
          · rintro (⟨hlt, h⟩ | ⟨k, hk1, hk2, hpre, hlt⟩)
            · left
              refine ⟨by omega, fun j hj => ?_⟩
              have := h (j + 1) (by omega)
              rw [s1, s2] at this; exact this
            · cases k with
              | zero => exact absurd (by simpa using hlt) c1
              | succ k =>
                right
                refine ⟨k, by omega, by omega, fun j hj => ?_, by rw [← s1, ← s2]; exact hlt⟩
                have := hpre (j + 1) (by omega)
                rw [s1, s2] at this; exact this

end ComparisonLemmas

namespace SimpleVector

variable {α : Type} [Elem α]

theorem operatorEq_iff [BEq α] (a b : SimpleVector α) :
    operatorEq a b = true ↔
      a.size_ = b.size_ ∧ ∀ i, i < a.size_ → (a.index i == b.index i) = true := by
  unfold operatorEq stdEqual
  simp only [begin_eq, cend_eq, Nat.sub_zero]
  by_cases h : a.size_ = b.size_
  · simp only [h, ne_eq, not_true_eq_false, if_false, true_and, stdEqualLoop_iff, Nat.zero_add]
    rfl
  · simp [h]

theorem operatorLt_iff [LinearOrder α] (a b : SimpleVector α) :
    operatorLt a b = true ↔
      ((a.size_ < b.size_ ∧ ∀ j, j < a.size_ → a.index j = b.index j) ∨
       (∃ k, k < a.size_ ∧ k < b.size_ ∧ (∀ j, j < k → a.index j = b.index j) ∧
          a.index k < b.index k)) := by
  unfold operatorLt stdLexicographicalCompare
  simp only [begin_eq, cend_eq, Nat.sub_zero, stdLexicographicalCompareLoop_iff, Nat.zero_add]
  rfl

end SimpleVector

/-! ## The claims -/

namespace SimpleVector

variable {α : Type} [Elem α]

open ArrayPtr

theorem pushAll_spec (calls : List (Bool × α)) : ∀ (v : SimpleVector α), v.Valid →
    (pushAll v calls).Valid ∧ (pushAll v calls).toList = v.toList ++ calls.map Prod.snd := by
  induction calls with
  | nil => intro v hv; exact ⟨hv, by simp [pushAll]⟩
  | cons c rest ih =>
    intro v hv
    obtain ⟨flag, item⟩ := c
    cases flag with
    | true =>
      obtain ⟨h1, h2, h3, h4⟩ := PushBackMove_spec v item hv
      obtain ⟨g1, g2⟩ := ih _ h1
      refine ⟨g1, ?_⟩
      show (pushAll (v.PushBackMove item) rest).toList = _
      rw [g2, toList_push v _ item h2 h3 h4]
      simp
    | false =>
      obtain ⟨h1, h2, h3, h4⟩ := PushBack_spec v item hv
      obtain ⟨g1, g2⟩ := ih _ h1
      refine ⟨g1, ?_⟩
      show (pushAll (v.PushBack item) rest).toList = _
      rw [g2, toList_push v _ item h2 h3 h4]
      simp

/-- C1: starting from a default-constructed vector, any sequence of `PushBack` calls (each one
through the copy-value or the move-value overload) leaves `GetSize()` equal to the number of
calls, `GetCapacity()` at least that number, and element `i` equal to the `i`-th pushed value. -/
theorem PushBack_sequence (calls : List (Bool × α)) :
    (pushAll (mkDefault : SimpleVector α) calls).GetSize = calls.length ∧
    (pushAll (mkDefault : SimpleVector α) calls).GetCapacity ≥ calls.length ∧
    (∀ (i : Nat) (h : i < calls.length),
      (pushAll (mkDefault : SimpleVector α) calls).index i = (calls.get ⟨i, h⟩).2) ∧
    (pushAll (mkDefault : SimpleVector α) calls).toList = calls.map Prod.snd := by
  obtain ⟨⟨h1, _⟩, h2⟩ := pushAll_spec calls (mkDefault : SimpleVector α) mkDefault_valid
  have h3 : (pushAll (mkDefault : SimpleVector α) calls).toList = calls.map Prod.snd := by
    rw [h2]; simp [toList, mkDefault]
  have h4 : (pushAll (mkDefault : SimpleVector α) calls).size_ = calls.length := by
    rw [← length_toList, h3, List.length_map]
  refine ⟨h4, ?_, ?_, h3⟩
  · show calls.length ≤ (pushAll (mkDefault : SimpleVector α) calls).capacity_
    omega
  · intro i h
    have e := getElem?_toList (pushAll (mkDefault : SimpleVector α) calls) i (by omega)
    rw [h3, List.getElem?_map, List.getElem?_eq_getElem h] at e
    simp only [Option.map_some', Option.some.injEq] at e
    rw [← e]
    rfl

/-- C2, evaluated on the code: a `SimpleVector<std::string>` holding `a`, `b` with capacity 4
takes the in-place branch of both `Insert` overloads, whose forward `std::move` onto the
overlapping range one slot to the right overwrites `b` before it is moved; after
`Insert(begin(), z)` the live elements are `z`, the empty string, `a` instead of `z`, `a`, `b`. -/
theorem Insert_begin_spare_capacity :
    (Reserve (mkInit ["a", "b"]) 4).Valid ∧
    (Reserve (mkInit ["a", "b"]) 4).toList = ["a", "b"] ∧
    (Reserve (mkInit ["a", "b"]) 4).GetCapacity = 4 ∧
    ((Reserve (mkInit ["a", "b"]) 4).Insert 0 "z").2.toList = ["z", "", "a"] ∧
    ((Reserve (mkInit ["a", "b"]) 4).InsertMove 0 "z").2.toList = ["z", "", "a"] ∧
    ((Reserve (mkInit ["a", "b"]) 4).Insert 0 "z").2.toList ≠ ["z", "a", "b"] ∧
    ((Reserve (mkInit ["a", "b"]) 4).InsertMove 0 "z").2.toList ≠ ["z", "a", "b"] := by
  decide

/-- C3: on a vector of size `n ≥ 1`, `Erase(begin() + k)` with `k < n` leaves size `n - 1`,
the live elements of before without the one at index `k` and in the same order, the same
capacity, and returns the iterator at offset `k`, which is `end()` when `k` was the last index;
on an empty vector `Erase(begin())` changes nothing and returns `begin()`. -/
theorem Erase_contract (v : SimpleVector α) (hv : v.Valid) :
    (∀ k, k < v.GetSize →
      (v.Erase (v.begin + k)).2.GetSize = v.GetSize - 1 ∧
      (v.Erase (v.begin + k)).2.toList = v.toList.eraseIdx k ∧
      (v.Erase (v.begin + k)).2.GetCapacity = v.GetCapacity ∧
      (v.Erase (v.begin + k)).1 = (v.Erase (v.begin + k)).2.begin + k ∧
      (k = v.GetSize - 1 → (v.Erase (v.begin + k)).1 = (v.Erase (v.begin + k)).2.cend)) ∧
    (v.IsEmpty = true → v.Erase v.begin = (v.begin, v)) := by
  constructor
  · intro k hk
    have hk2 : k < v.size_ := hk
    simp only [begin_eq, Nat.zero_add, cend_eq, GetSize, GetCapacity]
    refine ⟨?_, Erase_toList v k hv hk2, ?_, ?_, ?_⟩
    · rw [Erase_nonempty v k (by omega)]
    · rw [Erase_nonempty v k (by omega)]
    · rw [Erase_nonempty v k (by omega)]
    · intro e
      rw [Erase_nonempty v k (by omega)]
      exact e
  · intro h
    have h0 : v.size_ = 0 := by simpa [IsEmpty] using h
    exact Erase_empty v v.begin h0

/-- C3 at a concrete input: erasing offset 1 of the vector built from `[1, 2, 3]`. -/
theorem Erase_contract_witness :
    (mkInit [1, 2, 3] : SimpleVector Nat).Valid ∧
    ((mkInit [1, 2, 3] : SimpleVector Nat).Erase 1).2.toList = [1, 3] ∧
    ((mkInit [1, 2, 3] : SimpleVector Nat).Erase 1).2.GetCapacity = 3 :=
  ⟨by decide,
   ((Erase_contract (mkInit [1, 2, 3] : SimpleVector Nat) (by decide)).1 1 (by decide)).2.1,
   ((Erase_contract (mkInit [1, 2, 3] : SimpleVector Nat) (by decide)).1 1 (by decide)).2.2.1⟩

/-- C4: `At(i)` throws `out_of_range` exactly when `i ≥ GetSize()`, and for `i < GetSize()` it
returns the element that `operator[]` returns.  `At` has no effect on the members: it only
reads `size_` and the slot. -/
theorem At_contract (v : SimpleVector α) (i : Nat) :
    (v.At i = Except.error Error.out_of_range ↔ i ≥ v.GetSize) ∧
    (i < v.GetSize → v.At i = Except.ok (v.index i)) := by
  unfold At GetSize index
  by_cases h : i ≥ v.size_
  · simp [h]
  · have h2 : i < v.size_ := by omega
    simp [h, h2]

/-- C5: on a vector with `size_ ≤ capacity_`, `Resize(m)` makes the size `m`, keeps the
elements below `min(size, m)`, makes every element of `[size, m)` equal to `Type{}` (the slots
between the old size and the old capacity included when the buffer grows), keeps the capacity
when `m ≤ capacity_` and makes it `max(m, 2 * capacity_)` otherwise; `Resize(GetSize())`
changes neither the size nor the live elements. -/
theorem Resize_contract (v : SimpleVector α) (hv : v.Valid) (m : Nat) :
    (v.Resize m).GetSize = m ∧
    (∀ i, i < min v.GetSize m → (v.Resize m).index i = v.index i) ∧
    (∀ i, v.GetSize ≤ i → i < m → (v.Resize m).index i = Elem.dflt) ∧
    (m ≤ v.GetCapacity → (v.Resize m).GetCapacity = v.GetCapacity) ∧
    (v.GetCapacity < m → (v.Resize m).GetCapacity = max m (2 * v.GetCapacity)) ∧
    ((v.Resize v.GetSize).GetSize = v.GetSize ∧ (v.Resize v.GetSize).toList = v.toList) := by
  simp only [GetSize, GetCapacity]
  refine ⟨Resize_size v m, ?_, ?_, ?_, ?_, Resize_size v v.size_, ?_⟩
  · intro i hi
    exact Resize_index_old v m hv i (by omega) (by omega)
  · intro i h1 h2
    exact Resize_index_new v m hv i h1 h2
  · intro h
    rw [Resize_capacity v m hv, if_pos h]
  · intro h
    rw [Resize_capacity v m hv, if_neg (by omega), Nat.mul_comm]
  · apply toList_congr
    · exact Resize_size v v.size_
    · intro i hi
      rw [Resize_size] at hi
      exact Resize_index_old v v.size_ hv i hi hi

/-- C5 at a concrete input: a vector holding `7, 8` with capacity 3 resized to 5. -/
theorem Resize_contract_witness :
    (Reserve (mkInit [7, 8] : SimpleVector Nat) 3).Valid ∧
    ((Reserve (mkInit [7, 8] : SimpleVector Nat) 3).Resize 5).GetSize = 5 ∧
    ((Reserve (mkInit [7, 8] : SimpleVector Nat) 3).Resize 5).GetCapacity = 6 ∧
    ((Reserve (mkInit [7, 8] : SimpleVector Nat) 3).Resize 5).index 2 = 0 :=
  ⟨by decide,
   (Resize_contract (Reserve (mkInit [7, 8] : SimpleVector Nat) 3) (by decide) 5).1,
   (Resize_contract (Reserve (mkInit [7, 8] : SimpleVector Nat) 3) (by decide) 5).2.2.2.2.1
     (by decide),
   (Resize_contract (Reserve (mkInit [7, 8] : SimpleVector Nat) 3) (by decide) 5).2.2.1 2
     (by decide) (by decide)⟩

/-- C6: `Reserve(k)` with `k ≤ capacity_` leaves the vector as it is (capacity, size and
elements); with `k > capacity_` the capacity becomes exactly `k` while the size and every live
element, in order, stay the same. -/
theorem Reserve_contract (v : SimpleVector α) (hv : v.Valid) (k : Nat) :
    (k ≤ v.GetCapacity →
      (v.Reserve k).GetCapacity = v.GetCapacity ∧ (v.Reserve k).GetSize = v.GetSize ∧
      (v.Reserve k).toList = v.toList) ∧
    (v.GetCapacity < k →
      (v.Reserve k).GetCapacity = k ∧ (v.Reserve k).GetSize = v.GetSize ∧
      (v.Reserve k).toList = v.toList) := by
  simp only [GetSize, GetCapacity]
  constructor
  · intro h
    rw [Reserve_noop v k h]
    exact ⟨rfl, rfl, rfl⟩
  · intro h
    have hs : (v.Reserve k).size_ = v.size_ := by rw [Reserve_grow v k h]
    refine ⟨by rw [Reserve_grow v k h], hs, ?_⟩
    apply toList_congr _ _ hs
    intro i hi
    rw [hs] at hi
    exact Reserve_index v k i hv hi

/-- C6 at a concrete input: reserving 5 slots for the vector built from `[1, 2]`. -/
theorem Reserve_contract_witness :
    (mkInit [1, 2] : SimpleVector Nat).Valid ∧
    ((mkInit [1, 2] : SimpleVector Nat).Reserve 5).GetCapacity = 5 ∧
    ((mkInit [1, 2] : SimpleVector Nat).Reserve 5).GetSize = 2 ∧
    ((mkInit [1, 2] : SimpleVector Nat).Reserve 5).toList = [1, 2] :=
  ⟨by decide,
   (Reserve_contract (mkInit [1, 2] : SimpleVector Nat) (by decide) 5).2 (by decide)⟩

/-- C7: every state reachable from a constructor by the public operations, each used within
its contract, has `size_ ≤ capacity_` (I1) and `capacity_` equal to the length of the owned
buffer (I2). -/
theorem Reachable_invariants (v : SimpleVector α) (h : Reachable v) :
    v.GetSize ≤ v.GetCapacity ∧ v.GetCapacity = v.items_.length :=
  Reachable_valid v h

/-- C7 at a concrete input: the state after `PushBack(1)` and `Insert(begin(), 2)` on a
default-constructed vector. -/
theorem Reachable_invariants_witness :
    Reachable (((mkDefault : SimpleVector Nat).PushBack 1).Insert 0 2).2 ∧
    (((mkDefault : SimpleVector Nat).PushBack 1).Insert 0 2).2.GetSize ≤
      (((mkDefault : SimpleVector Nat).PushBack 1).Insert 0 2).2.GetCapacity ∧
    (((mkDefault : SimpleVector Nat).PushBack 1).Insert 0 2).2.GetCapacity =
      (((mkDefault : SimpleVector Nat).PushBack 1).Insert 0 2).2.items_.length :=
  ⟨Reachable.Insert _ 0 2 (Reachable.PushBack _ 1 Reachable.mkDefault) (by decide),
   Reachable_invariants _
     (Reachable.Insert _ 0 2 (Reachable.PushBack _ 1 Reachable.mkDefault) (by decide))⟩

end SimpleVector

section Trichotomy

variable {α : Type} [Elem α]

open ArrayPtr

/-- For a linearly ordered element type exactly one of three cases holds for two ranges: the
first is lexicographically smaller, the second is, or they have the same length and the same
elements. -/
theorem stdLexicographicalCompareLoop_trichotomy [LinearOrder α] (a b : List α) (n1 : Nat) :
    ∀ (n2 f1 f2 : Nat),
    (stdLexicographicalCompareLoop a b f1 f2 n1 n2 = true ∧
      stdLexicographicalCompareLoop b a f2 f1 n2 n1 = false ∧
      ¬ (n1 = n2 ∧ ∀ j, j < n1 → index a (f1 + j) = index b (f2 + j))) ∨
    (stdLexicographicalCompareLoop a b f1 f2 n1 n2 = false ∧
      stdLexicographicalCompareLoop b a f2 f1 n2 n1 = false ∧
      (n1 = n2 ∧ ∀ j, j < n1 → index a (f1 + j) = index b (f2 + j))) ∨
    (stdLexicographicalCompareLoop a b f1 f2 n1 n2 = false ∧
      stdLexicographicalCompareLoop b a f2 f1 n2 n1 = true ∧
      ¬ (n1 = n2 ∧ ∀ j, j < n1 → index a (f1 + j) = index b (f2 + j))) := by
  induction n1 with
  | zero =>
    intro n2 f1 f2
    cases n2 with
    | zero =>
      right; left
      exact ⟨by simp [stdLexicographicalCompareLoop], by simp [stdLexicographicalCompareLoop],
        rfl, fun j hj => by omega⟩
    | succ n2 =>
      left
      exact ⟨by simp [stdLexicographicalCompareLoop], by simp [stdLexicographicalCompareLoop],
        fun h => by omega⟩
  | succ n1 ih =>
    intro n2 f1 f2
    cases n2 with
    | zero =>
      right; right
      exact ⟨by simp [stdLexicographicalCompareLoop], by simp [stdLexicographicalCompareLoop],
        fun h => by omega⟩
    | succ n2 =>
      have hne : index a f1 ≠ index b f2 →
          ¬ (n1 + 1 = n2 + 1 ∧ ∀ j, j < n1 + 1 → index a (f1 + j) = index b (f2 + j)) := by
        intro hne h
        exact hne (by simpa using h.2 0 (by omega))
      by_cases c1 : index a f1 < index b f2
      · left
        have c2 : ¬ index b f2 < index a f1 := not_lt.mpr (le_of_lt c1)
        exact ⟨by simp [stdLexicographicalCompareLoop, c1],
          by simp [stdLexicographicalCompareLoop, c1, c2], hne (ne_of_lt c1)⟩
      · by_cases c2 : index b f2 < index a f1
        · right; right
          exact ⟨by simp [stdLexicographicalCompareLoop, c1, c2],
            by simp [stdLexicographicalCompareLoop, c2], hne (ne_of_gt c2)⟩
        · have e0 : index a f1 = index b f2 := le_antisymm (not_lt.mp c2) (not_lt.mp c1)
          have s1 : ∀ j, f1 + (j + 1) = f1 + 1 + j := fun j => by omega
          have s2 : ∀ j, f2 + (j + 1) = f2 + 1 + j := fun j => by omega
          have hE : (n1 + 1 = n2 + 1 ∧
                ∀ j, j < n1 + 1 → index a (f1 + j) = index b (f2 + j)) ↔
              (n1 = n2 ∧ ∀ j, j < n1 → index a (f1 + 1 + j) = index b (f2 + 1 + j)) := by
            constructor
            · rintro ⟨h1, h2⟩
              refine ⟨by omega, fun j hj => ?_⟩
              have := h2 (j + 1) (by omega)
              rw [s1, s2] at this; exact this
            · rintro ⟨h1, h2⟩
              refine ⟨by omega, fun j hj => ?_⟩
              cases j with
              | zero => simpa using e0
              | succ j => rw [s1, s2]; exact h2 j (by omega)
          have hL : stdLexicographicalCompareLoop a b f1 f2 (n1 + 1) (n2 + 1) =
              stdLexicographicalCompareLoop a b (f1 + 1) (f2 + 1) n1 n2 := by
            simp [stdLexicographicalCompareLoop, c1, c2]
          have hR : stdLexicographicalCompareLoop b a f2 f1 (n2 + 1) (n1 + 1) =
              stdLexicographicalCompareLoop b a (f2 + 1) (f1 + 1) n2 n1 := by
            simp [stdLexicographicalCompareLoop, c1, c2]
          rw [hL, hR, hE]
          exact ih n2 (f1 + 1) (f2 + 1)

end Trichotomy

namespace SimpleVector

variable {α : Type} [Elem α]

theorem operator_trichotomy [LinearOrder α] [BEq α] [LawfulBEq α] (a b : SimpleVector α) :
    (operatorLt a b = true ∧ operatorLt b a = false ∧ operatorEq a b = false) ∨
    (operatorLt a b = false ∧ operatorLt b a = false ∧ operatorEq a b = true) ∨
    (operatorLt a b = false ∧ operatorLt b a = true ∧ operatorEq a b = false) := by
  have hE : operatorEq a b = true ↔
      (a.size_ = b.size_ ∧
        ∀ j, j < a.size_ → ArrayPtr.index a.items_ (0 + j) = ArrayPtr.index b.items_ (0 + j)) := by
    rw [operatorEq_iff]
    simp [index]
  have hE2 : ∀ p : Prop, (operatorEq a b = true ↔ p) → ¬ p → operatorEq a b = false := by
    intro p hp hn
    cases h : operatorEq a b with
    | false => rfl
    | true => exact absurd (hp.mp h) hn
  have T := stdLexicographicalCompareLoop_trichotomy a.items_ b.items_ a.size_ b.size_ 0 0
  unfold operatorLt stdLexicographicalCompare
  simp only [begin_eq, cend_eq, Nat.sub_zero]
  rcases T with ⟨t1, t2, t3⟩ | ⟨t1, t2, t3⟩ | ⟨t1, t2, t3⟩
  · exact Or.inl ⟨t1, t2, hE2 _ hE t3⟩
  · exact Or.inr (Or.inl ⟨t1, t2, hE.mpr t3⟩)
  · exact Or.inr (Or.inr ⟨t1, t2, hE2 _ hE t3⟩)

/-- C8: `a == b` holds exactly when the sizes are equal and `a[i] == b[i]` for every
`i < size`; two pairs of vectors with the same sizes and the same live elements compare alike,
whatever their capacities and the contents of their unused slots. -/
theorem operatorEq_contract [BEq α] (a b : SimpleVector α) :
    (operatorEq a b = true ↔
      a.GetSize = b.GetSize ∧ ∀ i, i < a.GetSize → (a.index i == b.index i) = true) ∧
    (∀ a2 b2 : SimpleVector α,
      a2.GetSize = a.GetSize → (∀ i, i < a.GetSize → a2.index i = a.index i) →
      b2.GetSize = b.GetSize → (∀ i, i < b.GetSize → b2.index i = b.index i) →
      operatorEq a2 b2 = operatorEq a b) := by
  refine ⟨operatorEq_iff a b, ?_⟩
  intro a2 b2 ha hai hb hbi
  simp only [GetSize] at ha hai hb hbi
  rw [Bool.eq_iff_iff, operatorEq_iff, operatorEq_iff, ha, hb]
  constructor
  · rintro ⟨h1, h2⟩
    refine ⟨h1, fun i hi => ?_⟩
    rw [← hai i hi, ← hbi i (by omega)]
    exact h2 i hi
  · rintro ⟨h1, h2⟩
    refine ⟨h1, fun i hi => ?_⟩
    rw [hai i hi, hbi i (by omega)]
    exact h2 i hi

/-- C8 at a concrete input: the list `[1, 2]` held with capacity 2 and, after `Reserve(8)`,
`PushBack(9)` and `Resize(2)`, held with capacity 8 and a `9` in an unused slot. -/
theorem operatorEq_contract_witness :
    (((mkInit [1, 2] : SimpleVector Nat).Reserve 8).PushBack 9).Resize 2 =
      { items_ := [1, 2, 9, 0, 0, 0, 0, 0], size_ := 2, capacity_ := 8 } ∧
    operatorEq ((((mkInit [1, 2] : SimpleVector Nat).Reserve 8).PushBack 9).Resize 2)
      (mkInit [1, 2]) = operatorEq (mkInit [1, 2] : SimpleVector Nat) (mkInit [1, 2]) :=
  ⟨by decide,
   (operatorEq_contract (mkInit [1, 2] : SimpleVector Nat) (mkInit [1, 2])).2
     ((((mkInit [1, 2] : SimpleVector Nat).Reserve 8).PushBack 9).Resize 2) (mkInit [1, 2])
     (by decide) (by decide) (by decide) (by decide)⟩

/-- C9: over a linearly ordered element type `a < b` holds exactly when the live elements of
`a` are a proper prefix of those of `b`, or at the first index where the two differ the
element of `a` is the smaller one; so `{1,2} < {1,2,3}`, `{1,3} > {1,2,3}` and
`{1,2,3} == {1,2,3}`. -/
theorem operatorLt_contract [LinearOrder α] (a b : SimpleVector α) :
    (operatorLt a b = true ↔
      ((a.GetSize < b.GetSize ∧ ∀ j, j < a.GetSize → a.index j = b.index j) ∨
       (∃ k, k < a.GetSize ∧ k < b.GetSize ∧ (∀ j, j < k → a.index j = b.index j) ∧
          a.index k < b.index k))) ∧
    operatorLt (mkInit [1, 2] : SimpleVector Nat) (mkInit [1, 2, 3]) = true ∧
    operatorGt (mkInit [1, 3] : SimpleVector Nat) (mkInit [1, 2, 3]) = true ∧
    operatorEq (mkInit [1, 2, 3] : SimpleVector Nat) (mkInit [1, 2, 3]) = true :=
  ⟨operatorLt_iff a b, by decide, by decide, by decide⟩

/-- C10: over an element type whose `==` is equality and whose `<` is a linear order,
`a != b` is the negation of `a == b`, `a > b` is `b < a`, `a <= b` holds exactly when `a < b`
or `a == b`, `a >= b` exactly when `a > b` or `a == b`, and exactly one of `a < b`, `a == b`,
`a > b` holds. -/
theorem derived_operators [LinearOrder α] [BEq α] [LawfulBEq α] (a b : SimpleVector α) :
    operatorNe a b = !(operatorEq a b) ∧
    operatorGt a b = operatorLt b a ∧
    (operatorLe a b = true ↔ (operatorLt a b = true ∨ operatorEq a b = true)) ∧
    (operatorGe a b = true ↔ (operatorGt a b = true ∨ operatorEq a b = true)) ∧
    ((operatorLt a b = true ∧ operatorEq a b = false ∧ operatorGt a b = false) ∨
     (operatorLt a b = false ∧ operatorEq a b = true ∧ operatorGt a b = false) ∨
     (operatorLt a b = false ∧ operatorEq a b = false ∧ operatorGt a b = true)) := by
  have T := operator_trichotomy a b
  unfold operatorNe operatorGt operatorLe operatorGe
  refine ⟨rfl, rfl, ?_, ?_, ?_⟩
  · rcases T with ⟨t1, t2, t3⟩ | ⟨t1, t2, t3⟩ | ⟨t1, t2, t3⟩ <;> simp [t1, t2, t3]
  · rcases T with ⟨t1, t2, t3⟩ | ⟨t1, t2, t3⟩ | ⟨t1, t2, t3⟩ <;> simp [t1, t2, t3]
  · rcases T with ⟨t1, t2, t3⟩ | ⟨t1, t2, t3⟩ | ⟨t1, t2, t3⟩ <;> simp [t1, t2, t3]

/-- C10 at a concrete input: the vectors built from `[1, 2]` and `[1, 2, 3]` over `Nat`, whose
`==` is lawful: `<=` holds there, through `<`. -/
theorem derived_operators_witness :
    operatorLe (mkInit [1, 2] : SimpleVector Nat) (mkInit [1, 2, 3]) = true ∧
    (operatorLe (mkInit [1, 2] : SimpleVector Nat) (mkInit [1, 2, 3]) = true ↔
      (operatorLt (mkInit [1, 2] : SimpleVector Nat) (mkInit [1, 2, 3]) = true ∨
       operatorEq (mkInit [1, 2] : SimpleVector Nat) (mkInit [1, 2, 3]) = true)) ∧
    operatorGe (mkInit [1, 2] : SimpleVector Nat) (mkInit [1, 2, 3]) = false :=
  ⟨by decide,
   (derived_operators (mkInit [1, 2] : SimpleVector Nat) (mkInit [1, 2, 3])).2.2.1,
   by decide⟩

end SimpleVector

/-! ## Copy and move construction, assignment -/

namespace SimpleVector

variable {α : Type} [Elem α]

open ArrayPtr

theorem mkCopy_empty (other : SimpleVector α) (h : other.size_ = 0) :
    mkCopy other = { items_ := [], size_ := 0, capacity_ := 0 } := by
  unfold mkCopy
  simp [GetSize, mkDefault, h, stdCopy, stdCopyLoop, ArrayPtr.empty]

theorem mkCopy_nonempty (other : SimpleVector α) (h : other.size_ ≠ 0) :
    mkCopy other =
      { items_ := stdCopy other.items_ 0 other.size_ (mkSize other.size_).items_ 0,
        size_ := other.size_, capacity_ := other.size_ } := by
  have h2 : 0 < other.size_ := by omega
  unfold mkCopy
  simp [GetSize, mkDefault, h, h2, swap, mkSize]

theorem mkCopy_size (other : SimpleVector α) : (mkCopy other).size_ = other.size_ := by
  by_cases h : other.size_ = 0
  · rw [mkCopy_empty other h, h]
  · rw [mkCopy_nonempty other h]

theorem mkCopy_capacity (other : SimpleVector α) : (mkCopy other).capacity_ = other.size_ := by
  by_cases h : other.size_ = 0
  · rw [mkCopy_empty other h, h]
  · rw [mkCopy_nonempty other h]

theorem mkCopy_index (other : SimpleVector α) (i : Nat) (hi : i < other.size_) :
    (mkCopy other).index i = other.index i := by
  have h : other.size_ ≠ 0 := by omega
  have g : 0 ≤ i ∧ i < 0 + (other.size_ - 0) ∧
      i < (mkSize other.size_ : SimpleVector α).items_.length := by
    simp only [mkSize, Fill, length_FillLoop, length_create]
    omega
  rw [mkCopy_nonempty other h]
  show ArrayPtr.index (stdCopy other.items_ 0 other.size_ (mkSize other.size_).items_ 0) i = _
  rw [stdCopy, index_stdCopyLoop, if_pos g]
  simp [index]

theorem mkCopy_toList (other : SimpleVector α) : (mkCopy other).toList = other.toList := by
  apply toList_congr _ _ (mkCopy_size other)
  intro i hi
  rw [mkCopy_size] at hi
  exact mkCopy_index other i hi

theorem operatorEq_of_toList [BEq α] [LawfulBEq α] (a b : SimpleVector α)
    (hs : a.size_ = b.size_) (h : ∀ i, i < a.size_ → a.index i = b.index i) :
    operatorEq a b = true := by
  rw [operatorEq_iff]
  refine ⟨hs, fun i hi => ?_⟩
  rw [h i hi]
  exact beq_self_eq_true _

theorem mkMove_new (other : SimpleVector α) :
    (mkMove other).1 =
      { items_ := (stdMove other.items_ 0 other.size_ (create other.capacity_) 0).2,
        size_ := other.size_, capacity_ := other.capacity_ } := by
  unfold mkMove
  simp [GetSize, GetCapacity]

theorem mkMove_source (other : SimpleVector α) :
    (mkMove other).2 =
      { items_ := (stdMove other.items_ 0 other.size_ (create other.capacity_) 0).1,
        size_ := 0, capacity_ := other.capacity_ } := by
  unfold mkMove
  simp [GetSize, GetCapacity, Clear]

theorem mkMove_index (other : SimpleVector α) (hv : other.Valid) (i : Nat)
    (hi : i < other.size_) : (mkMove other).1.index i = other.index i := by
  obtain ⟨hs, hc⟩ := hv
  have g : 0 ≤ i ∧ i < 0 + (other.size_ - 0) ∧
      i < (create other.capacity_ : List α).length := by
    rw [length_create]; omega
  rw [mkMove_new]
  show ArrayPtr.index (stdMove other.items_ 0 other.size_ (create other.capacity_) 0).2 i = _
  rw [stdMove, index_stdMoveLoop_snd, if_pos g]
  simp [index]

/-- C11: the copy-constructed vector has the size of the source, the same live elements in
the same order (so it compares equal to the source with `==`), and capacity exactly the
source's size; the constructor reads the source through a `const` reference and returns
nothing but the new vector. -/
theorem copy_constructor [BEq α] [LawfulBEq α] (src : SimpleVector α) :
    (mkCopy src).GetSize = src.GetSize ∧
    (∀ i, i < src.GetSize → (mkCopy src).index i = src.index i) ∧
    (mkCopy src).toList = src.toList ∧
    operatorEq (mkCopy src) src = true ∧
    (mkCopy src).GetCapacity = src.GetSize :=
  ⟨mkCopy_size src, fun i hi => mkCopy_index src i hi, mkCopy_toList src,
   operatorEq_of_toList _ _ (mkCopy_size src)
     (fun i hi => mkCopy_index src i (by rw [mkCopy_size] at hi; exact hi)),
   mkCopy_capacity src⟩

/-- C11 at a concrete input: copying the vector that holds `1, 2` with capacity 8. -/
theorem copy_constructor_witness :
    (mkCopy ((mkInit [1, 2] : SimpleVector Nat).Reserve 8)).toList = [1, 2] ∧
    (mkCopy ((mkInit [1, 2] : SimpleVector Nat).Reserve 8)).GetCapacity = 2 ∧
    ((mkInit [1, 2] : SimpleVector Nat).Reserve 8).GetCapacity = 8 ∧
    operatorEq (mkCopy ((mkInit [1, 2] : SimpleVector Nat).Reserve 8))
      ((mkInit [1, 2] : SimpleVector Nat).Reserve 8) = true :=
  ⟨by decide, by decide, by decide,
   (copy_constructor ((mkInit [1, 2] : SimpleVector Nat).Reserve 8)).2.2.2.1⟩

/-- C12: after the copy assignment `a = rhs` of two distinct vectors `a` has the size and the
live elements of `rhs`, in order, and compares equal to it, whatever `a` held; the operator
reads `rhs` through a `const` reference.  The self-assignment `a = a` leaves every member of
`a` as it was. -/
theorem copy_assignment [BEq α] [LawfulBEq α] (a rhs : SimpleVector α) :
    (operatorAssign a rhs false).GetSize = rhs.GetSize ∧
    (operatorAssign a rhs false).toList = rhs.toList ∧
    operatorEq (operatorAssign a rhs false) rhs = true ∧
    operatorAssign a a true = a := by
  have e : operatorAssign a rhs false = mkCopy rhs := by
    simp [operatorAssign, copyAssign, swap]
  rw [e]
  exact ⟨mkCopy_size rhs, mkCopy_toList rhs,
    operatorEq_of_toList _ _ (mkCopy_size rhs)
      (fun i hi => mkCopy_index rhs i (by rw [mkCopy_size] at hi; exact hi)),
    by simp [operatorAssign]⟩

/-- C12 at a concrete input: assigning the vector built from `[7, 8, 9]` to one that holds
`1, 2`. -/
theorem copy_assignment_witness :
    (operatorAssign (mkInit [1, 2] : SimpleVector Nat) (mkInit [7, 8, 9]) false).toList =
      [7, 8, 9] ∧
    operatorEq (operatorAssign (mkInit [1, 2] : SimpleVector Nat) (mkInit [7, 8, 9]) false)
      (mkInit [7, 8, 9]) = true :=
  ⟨by decide,
   (copy_assignment (mkInit [1, 2] : SimpleVector Nat) (mkInit [7, 8, 9])).2.2.1⟩

/-- C13: move construction gives the new vector the size and the live elements of the
source, in order, and leaves the source with size 0; pushing values onto the moved-from source
then yields as many elements as pushes, the pushed values in order, which are the live
elements the same pushes produce on a default-constructed vector. -/
theorem move_constructor (src : SimpleVector α) (hv : src.Valid) :
    (mkMove src).1.GetSize = src.GetSize ∧
    (mkMove src).1.toList = src.toList ∧
    (mkMove src).2.GetSize = 0 ∧
    (∀ calls : List (Bool × α),
      (pushAll (mkMove src).2 calls).GetSize = calls.length ∧
      (pushAll (mkMove src).2 calls).toList = calls.map Prod.snd ∧
      (pushAll (mkMove src).2 calls).toList =
        (pushAll (mkDefault : SimpleVector α) calls).toList) := by
  have h1 : (mkMove src).1.size_ = src.size_ := by rw [mkMove_new]
  have h2 : (mkMove src).2.size_ = 0 := by rw [mkMove_source]
  refine ⟨h1, ?_, h2, ?_⟩
  · apply toList_congr _ _ h1
    intro i hi
    rw [h1] at hi
    exact mkMove_index src hv i hi
  · intro calls
    obtain ⟨_, g2⟩ := pushAll_spec calls (mkMove src).2 (mkMove_valid src hv).2
    obtain ⟨_, g4⟩ := pushAll_spec calls (mkDefault : SimpleVector α) mkDefault_valid
    have e1 : (mkMove src).2.toList = [] := by simp [toList, h2]
    have e2 : (mkDefault : SimpleVector α).toList = [] := by simp [toList, mkDefault]
    rw [e1, List.nil_append] at g2
    rw [e2, List.nil_append] at g4
    refine ⟨?_, g2, by rw [g2, g4]⟩
    show (pushAll (mkMove src).2 calls).size_ = _
    rw [← length_toList, g2, List.length_map]

/-- C13 at a concrete input: moving from the vector built from the strings `a`, `b`, then
pushing `x` and `y` onto the source. -/
theorem move_constructor_witness :
    (mkInit ["a", "b"] : SimpleVector String).Valid ∧
    (mkMove (mkInit ["a", "b"] : SimpleVector String)).1.toList = ["a", "b"] ∧
    (pushAll (mkMove (mkInit ["a", "b"] : SimpleVector String)).2
      [(false, "x"), (true, "y")]).toList = ["x", "y"] :=
  ⟨by decide,
   (move_constructor (mkInit ["a", "b"] : SimpleVector String) (by decide)).2.1.trans
     (by decide),
   ((move_constructor (mkInit ["a", "b"] : SimpleVector String) (by decide)).2.2.2
     [(false, "x"), (true, "y")]).2.1⟩

/-- C14, as stated, fails: after `a = std::move(b)` with `b` holding `1, 2` the size of `b` is
still 2. -/
theorem move_assignment_source_not_emptied :
    (moveAssignExpr (mkInit [9] : SimpleVector Nat) (mkInit [1, 2])).2.GetSize = 2 ∧
    ¬ (moveAssignExpr (mkInit [9] : SimpleVector Nat) (mkInit [1, 2])).2.GetSize = 0 := by
  decide

/-- C14, amended: `a = std::move(b)` for two distinct vectors runs the copy assignment: `a`
gets the size and the live elements of `b`, in order, and `b` keeps its size, capacity and
elements. -/
theorem move_assignment_copies (a b : SimpleVector α) :
    (moveAssignExpr a b).1.GetSize = b.GetSize ∧
    (moveAssignExpr a b).1.toList = b.toList ∧
    (moveAssignExpr a b).2 = b := by
  have e : (moveAssignExpr a b).1 = mkCopy b := by
    simp [moveAssignExpr, operatorAssign, copyAssign, swap]
  rw [e]
  exact ⟨mkCopy_size b, mkCopy_toList b, rfl⟩

end SimpleVector

/-! ## Allocation failure -/

namespace ArrayPtr

variable {α : Type} [Elem α]

theorem createE_refused (mem : Nat → Bool) (n : Nat) (h0 : n ≠ 0) (h : mem n = false) :
    (createE mem n : Except BadAlloc (List α)) = Except.error BadAlloc.bad_alloc := by
  simp [createE, h0, h]

theorem createE_granted (n : Nat) :
    (createE (fun _ => true) n : Except BadAlloc (List α)) = Except.ok (create n) := by
  simp [createE]

end ArrayPtr

namespace SimpleVector

variable {α : Type} [Elem α]

open ArrayPtr

theorem mkSizeE_refused (mem : Nat → Bool) (n : Nat) (h0 : n ≠ 0) (h : mem n = false) :
    (mkSizeE mem n : Except BadAlloc (SimpleVector α)) = Except.error BadAlloc.bad_alloc := by
  simp [mkSizeE, createE_refused mem n h0 h]

theorem mkSizeE_granted (n : Nat) :
    (mkSizeE (fun _ => true) n : Except BadAlloc (SimpleVector α)) = Except.ok (mkSize n) := by
  simp [mkSizeE, createE_granted, mkSize]

theorem mkCopyE_granted (other : SimpleVector α) :
    mkCopyE (fun _ => true) other = Except.ok (mkCopy other) := by
  unfold mkCopyE mkCopy
  simp only [mkSizeE_granted]
  split <;> rfl

theorem operatorAssignE_granted (v rhs : SimpleVector α) (aliased : Bool) :
    operatorAssignE (fun _ => true) v rhs aliased =
      Outcome.returned () (operatorAssign v rhs aliased) := by
  unfold operatorAssignE operatorAssign copyAssign
  simp only [mkCopyE_granted]
  split <;> rfl

theorem ResizeE_granted (v : SimpleVector α) (m : Nat) :
    ResizeE (fun _ => true) v m = Outcome.returned () (v.Resize m) := by
  unfold ResizeE Resize
  simp only [createE_granted]
  split_ifs <;> rfl

theorem ReserveE_granted (v : SimpleVector α) (m : Nat) :
    ReserveE (fun _ => true) v m = Outcome.returned () (v.Reserve m) := by
  unfold ReserveE Reserve
  simp only [createE_granted]
  split <;> rfl

theorem PushBackE_granted (v : SimpleVector α) (item : α) :
    PushBackE (fun _ => true) v item = Outcome.returned () (v.PushBack item) := by
  unfold PushBackE PushBack
  simp only [ResizeE_granted]
  split <;> rfl

theorem InsertE_granted (v : SimpleVector α) (pos : Nat) (value : α) :
    InsertE (fun _ => true) v pos value =
      Outcome.returned (v.Insert pos value).1 (v.Insert pos value).2 := by
  unfold InsertE Insert
  simp only [mkSizeE_granted, ResizeE_granted]
  split
  · rfl
  · split <;> rfl

theorem InsertMoveE_granted (v : SimpleVector α) (pos : Nat) (value : α) :
    InsertMoveE (fun _ => true) v pos value =
      Outcome.returned (v.InsertMove pos value).1 (v.InsertMove pos value).2 := by
  unfold InsertMoveE InsertMove
  simp only [createE_granted]
  split
  · rfl
  · split <;> rfl

theorem PushBackMoveE_granted (v : SimpleVector α) (item : α) :
    PushBackMoveE (fun _ => true) v item = Outcome.returned () (v.PushBackMove item) := by
  unfold PushBackMoveE PushBackMove
  rw [InsertMoveE_granted]

theorem ResizeE_refused (mem : Nat → Bool) (v : SimpleVector α) (m : Nat) (hv : v.Valid)
    (hm : v.capacity_ < m) (h : mem (max m (v.capacity_ * 2)) = false) :
    ResizeE mem v m = Outcome.threw BadAlloc.bad_alloc v := by
  obtain ⟨hs, _⟩ := hv
  have h1 : ¬ m < v.size_ := by omega
  have h2 : ¬ m ≤ v.capacity_ := by omega
  have h0 : max m (v.capacity_ * 2) ≠ 0 := by omega
  unfold ResizeE
  simp [h1, h2, hm, createE_refused mem _ h0 h]

theorem ReserveE_refused (mem : Nat → Bool) (v : SimpleVector α) (m : Nat)
    (hm : v.capacity_ < m) (h : mem m = false) :
    ReserveE mem v m = Outcome.threw BadAlloc.bad_alloc v := by
  have h0 : m ≠ 0 := by omega
  unfold ReserveE
  simp [hm, createE_refused mem _ h0 h]

theorem PushBackE_refused (mem : Nat → Bool) (v : SimpleVector α) (item : α) (hv : v.Valid)
    (hf : ¬ v.size_ < v.capacity_) (h : mem (max (v.size_ + 1) (v.capacity_ * 2)) = false) :
    PushBackE mem v item = Outcome.threw BadAlloc.bad_alloc v := by
  have hm : v.capacity_ < v.size_ + 1 := by omega
  unfold PushBackE
  simp [hf, ResizeE_refused mem v (v.size_ + 1) hv hm h]

theorem InsertE_refused (mem : Nat → Bool) (v : SimpleVector α) (pos : Nat) (value : α)
    (hf : ¬ v.size_ < v.capacity_)
    (h : mem (if v.capacity_ = 0 then 1 else v.capacity_ * 2) = false) :
    InsertE mem v pos value = Outcome.threw BadAlloc.bad_alloc v := by
  unfold InsertE
  by_cases h0 : v.capacity_ = 0
  · rw [if_pos h0] at h
    simp [h0, mkSizeE_refused mem 1 (by omega) h]
  · rw [if_neg h0] at h
    simp [h0, hf, mkSizeE_refused mem (v.capacity_ * 2) (by omega) h]

theorem InsertMoveE_refused (mem : Nat → Bool) (v : SimpleVector α) (pos : Nat) (value : α)
    (hf : ¬ v.size_ < v.capacity_)
    (h : mem (if v.capacity_ = 0 then 1 else v.capacity_ * 2) = false) :
    InsertMoveE mem v pos value = Outcome.threw BadAlloc.bad_alloc v := by
  unfold InsertMoveE
  by_cases h0 : v.capacity_ = 0
  · rw [if_pos h0] at h
    simp [h0, createE_refused mem 1 (by omega) h]
  · rw [if_neg h0] at h
    simp [h0, hf, createE_refused mem (v.capacity_ * 2) (by omega) h]

theorem operatorAssignE_refused (mem : Nat → Bool) (v rhs : SimpleVector α)
    (h0 : rhs.size_ ≠ 0) (h : mem rhs.size_ = false) :
    operatorAssignE mem v rhs false = Outcome.threw BadAlloc.bad_alloc v := by
  unfold operatorAssignE mkCopyE
  simp [GetSize, mkDefault, h0, mkSizeE_refused mem rhs.size_ h0 h]

/-- C15: when the allocator refuses the new buffer of a growing operation (`PushBack` and
`Insert` in either overload on a full vector, `Resize` and `Reserve` past the capacity, copy
assignment from a non-empty vector), the operation ends with `std::bad_alloc` and the members
of the vector are those of before the call. -/
theorem allocation_failure (mem : Nat → Bool) (v rhs : SimpleVector α) (hv : v.Valid)
    (value : α) (pos m : Nat) :
    (¬ v.GetSize < v.GetCapacity → mem (max (v.GetSize + 1) (v.GetCapacity * 2)) = false →
      PushBackE mem v value = Outcome.threw BadAlloc.bad_alloc v) ∧
    (¬ v.GetSize < v.GetCapacity →
      mem (if v.GetCapacity = 0 then 1 else v.GetCapacity * 2) = false →
      PushBackMoveE mem v value = Outcome.threw BadAlloc.bad_alloc v ∧
      InsertE mem v pos value = Outcome.threw BadAlloc.bad_alloc v ∧
      InsertMoveE mem v pos value = Outcome.threw BadAlloc.bad_alloc v) ∧
    (v.GetCapacity < m → mem (max m (v.GetCapacity * 2)) = false →
      ResizeE mem v m = Outcome.threw BadAlloc.bad_alloc v) ∧
    (v.GetCapacity < m → mem m = false →
      ReserveE mem v m = Outcome.threw BadAlloc.bad_alloc v) ∧
    (rhs.GetSize ≠ 0 → mem rhs.GetSize = false →
      operatorAssignE mem v rhs false = Outcome.threw BadAlloc.bad_alloc v) := by
  simp only [GetSize, GetCapacity]
  refine ⟨fun hf h => PushBackE_refused mem v value hv hf h, fun hf h => ⟨?_, ?_, ?_⟩,
    fun hm h => ResizeE_refused mem v m hv hm h, fun hm h => ReserveE_refused mem v m hm h,
    fun h0 h => operatorAssignE_refused mem v rhs h0 h⟩
  · unfold PushBackMoveE
    rw [InsertMoveE_refused mem v _ value hf h]
  · exact InsertE_refused mem v pos value hf h
  · exact InsertMoveE_refused mem v pos value hf h

end SimpleVector

/-! ## Growth of the capacity under PushBack -/

namespace SimpleVector

variable {α : Type} [Elem α]

open ArrayPtr

theorem clog_succ_of_lt (n : Nat) (h : n < 2 ^ Nat.clog 2 n) :
    Nat.clog 2 (n + 1) = Nat.clog 2 n := by
  apply le_antisymm
  · exact (Nat.le_pow_iff_clog_le (by omega)).mp (by omega)
  · exact Nat.clog_mono_right 2 (by omega)

theorem clog_succ_of_eq (n : Nat) (h : n = 2 ^ Nat.clog 2 n) :
    Nat.clog 2 (n + 1) = Nat.clog 2 n + 1 := by
  apply le_antisymm
  · apply (Nat.le_pow_iff_clog_le (by omega)).mp
    have : 1 ≤ 2 ^ Nat.clog 2 n := Nat.one_le_two_pow
    rw [pow_succ]
    omega
  · apply (Nat.pow_lt_iff_lt_clog (by omega)).mp
    omega

theorem le_claimedCapacity (n : Nat) : n ≤ claimedCapacity n := by
  unfold claimedCapacity
  split
  · omega
  · exact Nat.le_pow_clog (by omega) n

theorem claimedCapacity_succ (n : Nat) :
    claimedCapacity (n + 1) =
      if n < claimedCapacity n then claimedCapacity n
      else if claimedCapacity n = 0 then 1 else claimedCapacity n * 2 := by
  by_cases h0 : n = 0
  · subst h0
    simp [claimedCapacity, Nat.clog_one_right]
  · have hle := Nat.le_pow_clog (show 1 < 2 by omega) n
    have hpos : 2 ^ Nat.clog 2 n ≠ 0 := by positivity
    simp only [claimedCapacity, h0, if_false, Nat.succ_ne_zero]
    by_cases h : n < 2 ^ Nat.clog 2 n
    · rw [if_pos h, clog_succ_of_lt n h]
    · rw [if_neg h, if_neg hpos, clog_succ_of_eq n (by omega), pow_succ]

theorem claimedGrowths_succ (n : Nat) :
    claimedGrowths (n + 1) =
      claimedGrowths n + (if claimedCapacity (n + 1) ≠ claimedCapacity n then 1 else 0) := by
  by_cases h0 : n = 0
  · subst h0
    simp [claimedGrowths, claimedCapacity, Nat.clog_one_right]
  · have hle := Nat.le_pow_clog (show 1 < 2 by omega) n
    have hpos : 0 < 2 ^ Nat.clog 2 n := by positivity
    simp only [claimedGrowths, claimedCapacity, h0, if_false, Nat.succ_ne_zero]
    by_cases h : n < 2 ^ Nat.clog 2 n
    · rw [clog_succ_of_lt n h]
      simp
    · rw [clog_succ_of_eq n (by omega), pow_succ]
      have : 2 ^ Nat.clog 2 n * 2 ≠ 2 ^ Nat.clog 2 n := by omega
      simp [this]

theorem pushOne_spec (v : SimpleVector α) (call : Bool × α) (hv : v.Valid) :
    (pushOne v call).Valid ∧ (pushOne v call).size_ = v.size_ + 1 := by
  obtain ⟨flag, item⟩ := call
  cases flag with
  | true => exact ⟨(PushBackMove_spec v item hv).1, (PushBackMove_spec v item hv).2.1⟩
  | false => exact ⟨(PushBack_spec v item hv).1, (PushBack_spec v item hv).2.1⟩

theorem PushBack_capacity (v : SimpleVector α) (item : α) (hv : v.Valid) :
    (v.PushBack item).capacity_ =
      if v.size_ < v.capacity_ then v.capacity_
      else if v.capacity_ = 0 then 1 else v.capacity_ * 2 := by
  obtain ⟨hs, hc⟩ := hv
  by_cases h : v.size_ < v.capacity_
  · rw [if_pos h]
    unfold PushBack
    simp [h]
  · have e : (v.PushBack item).capacity_ = (v.Resize (v.size_ + 1)).capacity_ := by
      unfold PushBack
      simp [h]
    rw [e, if_neg h, Resize_capacity v _ ⟨hs, hc⟩, if_neg (by omega)]
    by_cases h0 : v.capacity_ = 0
    · rw [if_pos h0]; omega
    · rw [if_neg h0]; omega

theorem PushBackMove_capacity (v : SimpleVector α) (item : α) (hv : v.Valid) :
    (v.PushBackMove item).capacity_ =
      if v.size_ < v.capacity_ then v.capacity_
      else if v.capacity_ = 0 then 1 else v.capacity_ * 2 := by
  obtain ⟨hs, hc⟩ := hv
  unfold PushBackMove
  by_cases h0 : v.capacity_ = 0
  · rw [InsertMove_empty v _ item h0, if_neg (by omega), if_pos h0]
  · by_cases h : v.size_ < v.capacity_
    · rw [InsertMove_inplace v _ item h0 h, if_pos h]
    · rw [InsertMove_full v _ item h0 h, if_neg h, if_neg h0]

theorem pushOne_capacity (v : SimpleVector α) (call : Bool × α) (hv : v.Valid) :
    (pushOne v call).capacity_ =
      if v.size_ < v.capacity_ then v.capacity_
      else if v.capacity_ = 0 then 1 else v.capacity_ * 2 := by
  obtain ⟨flag, item⟩ := call
  cases flag with
  | true => exact PushBackMove_capacity v item hv
  | false => exact PushBack_capacity v item hv

theorem pushAll_cons (v : SimpleVector α) (call : Bool × α) (rest : List (Bool × α)) :
    pushAll v (call :: rest) = pushAll (pushOne v call) rest := by
  obtain ⟨flag, item⟩ := call
  cases flag <;> rfl

theorem pushAll_growth (calls : List (Bool × α)) : ∀ (v : SimpleVector α), v.Valid →
    v.capacity_ = claimedCapacity v.size_ →
    (pushAll v calls).capacity_ = claimedCapacity (v.size_ + calls.length) ∧
    claimedGrowths v.size_ + pushGrowths v calls = claimedGrowths (v.size_ + calls.length) := by
  induction calls with
  | nil => intro v _ hc; exact ⟨by simpa [pushAll] using hc, by simp [pushGrowths]⟩
  | cons call rest ih =>
    intro v hv hc
    obtain ⟨h1, h2⟩ := pushOne_spec v call hv
    have h3 : (pushOne v call).capacity_ = claimedCapacity (v.size_ + 1) := by
      rw [pushOne_capacity v call hv, claimedCapacity_succ, hc]
    obtain ⟨g1, g2⟩ := ih (pushOne v call) h1 (by rw [h3, h2])
    rw [h2] at g1 g2
    have e : v.size_ + 1 + rest.length = v.size_ + (call :: rest).length := by
      simp only [List.length_cons]; omega
    rw [e] at g1 g2
    refine ⟨by rw [pushAll_cons]; exact g1, ?_⟩
    rw [← g2, claimedGrowths_succ]
    simp only [pushGrowths, GetCapacity, h3, hc]
    omega

/-- C16: a `PushBack` (either overload) on a full vector takes capacity 0 to 1 and any other
capacity `c` to `2 * c`, and one on a vector with spare capacity keeps the capacity; after
`n ≥ 1` pushes onto a default-constructed vector the capacity is `2 ^ ceil(log2 n)`, the
smallest power of two that is at least `n`, so `n ≤ capacity < 2 * n`, and the capacity changed
in exactly `ceil(log2 n) + 1` of the pushes. -/
theorem PushBack_growth (calls : List (Bool × α)) (hn : 1 ≤ calls.length) :
    (∀ (v : SimpleVector α) (call : Bool × α), v.Valid →
      (pushOne v call).GetCapacity =
        if v.GetSize < v.GetCapacity then v.GetCapacity
        else if v.GetCapacity = 0 then 1 else 2 * v.GetCapacity) ∧
    (pushAll (mkDefault : SimpleVector α) calls).GetCapacity = 2 ^ Nat.clog 2 calls.length ∧
    (∀ j, calls.length ≤ 2 ^ j →
      (pushAll (mkDefault : SimpleVector α) calls).GetCapacity ≤ 2 ^ j) ∧
    calls.length ≤ (pushAll (mkDefault : SimpleVector α) calls).GetCapacity ∧
    (pushAll (mkDefault : SimpleVector α) calls).GetCapacity < 2 * calls.length ∧
    pushGrowths (mkDefault : SimpleVector α) calls = Nat.clog 2 calls.length + 1 := by
  obtain ⟨g1, g2⟩ := pushAll_growth calls (mkDefault : SimpleVector α) mkDefault_valid
    (by simp [mkDefault, claimedCapacity])
  have hz : (mkDefault : SimpleVector α).size_ = 0 := rfl
  have hn0 : calls.length ≠ 0 := by omega
  rw [hz, Nat.zero_add] at g1 g2
  simp only [claimedCapacity, claimedGrowths, hn0, if_false, if_true, Nat.zero_add] at g1 g2
  simp only [GetCapacity, GetSize]
  refine ⟨?_, g1, ?_, ?_, ?_, g2⟩
  · intro v call hv
    rw [pushOne_capacity v call hv, Nat.mul_comm]
  · intro j hj
    rw [g1]
    exact Nat.pow_le_pow_right (by omega) ((Nat.le_pow_iff_clog_le (by omega)).mp hj)
  · rw [g1]
    exact Nat.le_pow_clog (by omega) _
  · rw [g1]
    by_cases h1 : calls.length = 1
    · rw [h1, Nat.clog_one_right]; decide
    · have hlt := Nat.pow_pred_clog_lt_self (show 1 < 2 by omega)
        (show 1 < calls.length by omega)
      have hpos := Nat.clog_pos (show 1 < 2 by omega) (show 2 ≤ calls.length by omega)
      have e : Nat.clog 2 calls.length = (Nat.clog 2 calls.length).pred + 1 := by
        rw [Nat.pred_eq_sub_one]; omega
      rw [e, pow_succ]
      omega

/-- C16 at a concrete input: five pushes, alternating the two overloads. -/
theorem PushBack_growth_witness :
    (pushAll (mkDefault : SimpleVector Nat)
      [(false, 1), (true, 2), (false, 3), (true, 4), (false, 5)]).GetCapacity =
        2 ^ Nat.clog 2 5 ∧
    (pushAll (mkDefault : SimpleVector Nat)
      [(false, 1), (true, 2), (false, 3), (true, 4), (false, 5)]).GetCapacity = 8 ∧
    pushGrowths (mkDefault : SimpleVector Nat)
      [(false, 1), (true, 2), (false, 3), (true, 4), (false, 5)] = Nat.clog 2 5 + 1 ∧
    pushGrowths (mkDefault : SimpleVector Nat)
      [(false, 1), (true, 2), (false, 3), (true, 4), (false, 5)] = 4 :=
  ⟨(PushBack_growth [(false, 1), (true, 2), (false, 3), (true, 4), (false, 5)]
      (by decide)).2.1,
   by decide,
   (PushBack_growth [(false, 1), (true, 2), (false, 3), (true, 4), (false, 5)]
      (by decide)).2.2.2.2.2,
   by decide⟩

end SimpleVector

/-! ## Constructors -/

namespace SimpleVector

variable {α : Type} [Elem α]

open ArrayPtr

theorem index_FillLoop (n : Nat) : ∀ (buf : List α) (f : Nat) (x : α) (i : Nat),
    ArrayPtr.index (FillLoop buf f x n) i =
      if f ≤ i ∧ i < f + n ∧ i < buf.length then Elem.movedFrom^[i - f] x
      else ArrayPtr.index buf i := by
  induction n with
  | zero =>
    intro buf f x i
    have : ¬ (f ≤ i ∧ i < f + 0 ∧ i < buf.length) := by omega
    simp only [FillLoop]
    exact (if_neg this).symm
  | succ n ih =>
    intro buf f x i
    simp only [FillLoop, ih, length_assign, index_assign]
    by_cases h1 : f + 1 ≤ i ∧ i < f + 1 + n ∧ i < buf.length
    · have h2 : f ≤ i ∧ i < f + (n + 1) ∧ i < buf.length := by omega
      have h3 : i - f = (i - (f + 1)) + 1 := by omega
      rw [if_pos h1, if_pos h2, h3, Function.iterate_succ_apply]
    · rw [if_neg h1]
      by_cases h4 : i = f ∧ f < buf.length
      · have h2 : f ≤ i ∧ i < f + (n + 1) ∧ i < buf.length := by omega
        have h3 : i - f = 0 := by omega
        rw [if_pos h4, if_pos h2, h3]
        rfl
      · have h2 : ¬ (f ≤ i ∧ i < f + (n + 1) ∧ i < buf.length) := by omega
        rw [if_neg h4, if_neg h2]

theorem mkSizeValue_index (n : Nat) (x : α) (i : Nat) (hi : i < n) :
    (mkSizeValue n x).index i = Elem.movedFrom^[i] x := by
  have g : 0 ≤ i ∧ i < 0 + (n - 0) ∧ i < (create n : List α).length := by
    rw [length_create]; omega
  show ArrayPtr.index (Fill (create n) 0 n x) i = _
  rw [Fill, index_FillLoop, if_pos g]
  rfl

theorem mkSize_index (n : Nat) (i : Nat) (hi : i < n)
    (hd : Elem.movedFrom (Elem.dflt : α) = Elem.dflt) :
    (mkSize n : SimpleVector α).index i = Elem.dflt := by
  have e : (mkSize n : SimpleVector α) = mkSizeValue n Elem.dflt := rfl
  rw [e, mkSizeValue_index n _ i hi]
  exact Function.iterate_fixed hd i

theorem mkInit_index (init : List α) (i : Nat) (hi : i < init.length) :
    (mkInit init).index i = ArrayPtr.index init i := by
  have g : 0 ≤ i ∧ i < 0 + (init.length - 0) ∧ i < (create init.length : List α).length := by
    rw [length_create]; omega
  show ArrayPtr.index (stdCopy init 0 init.length (create init.length) 0) i = _
  rw [stdCopy, index_stdCopyLoop, if_pos g]
  simp

theorem mkInit_toList (init : List α) : (mkInit init).toList = init := by
  apply toList_eq_of
  · rfl
  · intro i hi
    have hi2 : i < init.length := hi
    rw [mkInit_index init i hi2, getElem?_eq_index init i hi2]

/-- The constructors other than `SimpleVector(size, value)`: sizes and capacities are as
documented, the initializer-list constructor keeps the list, and `SimpleVector(size)` holds
default values whenever moving from `Type{}` leaves `Type{}`. -/
theorem constructors_state (n : Nat) (init : List α) :
    ((mkDefault : SimpleVector α).GetSize = 0 ∧ (mkDefault : SimpleVector α).GetCapacity = 0) ∧
    ((mkSize n : SimpleVector α).GetSize = n ∧ (mkSize n : SimpleVector α).GetCapacity = n ∧
      (Elem.movedFrom (Elem.dflt : α) = Elem.dflt →
        ∀ i, i < n → (mkSize n : SimpleVector α).index i = Elem.dflt)) ∧
    (∀ x : α, (mkSizeValue n x).GetSize = n ∧ (mkSizeValue n x).GetCapacity = n ∧
      (∀ i, i < n → (mkSizeValue n x).index i = Elem.movedFrom^[i] x)) ∧
    ((mkInit init).GetSize = init.length ∧ (mkInit init).GetCapacity = init.length ∧
      (mkInit init).toList = init) ∧
    ((mkReserve n : SimpleVector α).GetSize = 0 ∧ (mkReserve n : SimpleVector α).GetCapacity = n) :=
  ⟨⟨rfl, rfl⟩, ⟨rfl, rfl, fun hd i hi => mkSize_index n i hi hd⟩,
   fun x => ⟨rfl, rfl, fun i hi => mkSizeValue_index n x i hi⟩,
   ⟨rfl, rfl, mkInit_toList init⟩, ⟨rfl, rfl⟩⟩

/-- C17, evaluated on the code: `SimpleVector<std::string>(3, "abc")` has size 3 and capacity
3, but `Fill` assigns `std::move(value)` in every round of its loop, so only the first slot
gets `abc` and the other two get the moved-from, empty string. -/
theorem sized_value_constructor_moves_value :
    (mkSizeValue 3 "abc" : SimpleVector String).GetSize = 3 ∧
    (mkSizeValue 3 "abc" : SimpleVector String).GetCapacity = 3 ∧
    (mkSizeValue 3 "abc" : SimpleVector String).toList = ["abc", "", ""] ∧
    (mkSizeValue 3 "abc" : SimpleVector String).index 1 ≠ "abc" := by
  decide

end SimpleVector

/-! ## Insert -/

section StdMoveSelfRight

variable {α : Type} [Elem α]

open ArrayPtr

/-- A forward move to the right by one slot (`d_first = first + 1`, inside the source range):
the first element of the range is carried through every slot; it ends in the last slot and
the slots before it are left moved-from.  The other elements of the range are overwritten. -/
theorem index_stdMoveSelfLoop_right (n : Nat) : ∀ (buf : List α) (k i : Nat),
    k + n < buf.length →
    index (stdMoveSelfLoop buf k (k + 1) n) i =
      if 0 < n ∧ k ≤ i ∧ i < k + n then Elem.movedFrom (index buf k)
      else if 0 < n ∧ i = k + n then index buf k
      else index buf i := by
  induction n with
  | zero =>
    intro buf k i _
    have h1 : ¬ (0 < 0 ∧ k ≤ i ∧ i < k + 0) := by omega
    have h2 : ¬ (0 < 0 ∧ i = k + 0) := by omega
    simp only [stdMoveSelfLoop]
    rw [if_neg h1, if_neg h2]
  | succ n ih =>
    intro buf k i hlen
    have hl2 : k + 1 + n < (assign (assign buf (k + 1) (index buf k)) k
        (Elem.movedFrom (index buf k))).length := by
      rw [length_assign, length_assign]; omega
    have hx : index (assign (assign buf (k + 1) (index buf k)) k
        (Elem.movedFrom (index buf k))) (k + 1) = index buf k := by
      have a1 : ¬ (k + 1 = k ∧ k < (assign buf (k + 1) (index buf k)).length) := by omega
      have a2 : k + 1 = k + 1 ∧ k + 1 < buf.length := by omega
      rw [index_assign, if_neg a1, index_assign, if_pos a2]
    simp only [stdMoveSelfLoop]
    rw [ih _ (k + 1) i hl2, hx]
    by_cases c1 : 0 < n ∧ k + 1 ≤ i ∧ i < k + 1 + n
    · have g1 : 0 < n + 1 ∧ k ≤ i ∧ i < k + (n + 1) := by omega
      rw [if_pos c1, if_pos g1]
    · rw [if_neg c1]
      by_cases c2 : 0 < n ∧ i = k + 1 + n
      · have g1 : ¬ (0 < n + 1 ∧ k ≤ i ∧ i < k + (n + 1)) := by omega
        have g2 : 0 < n + 1 ∧ i = k + (n + 1) := by omega
        rw [if_pos c2, if_neg g1, if_pos g2]
      · rw [if_neg c2, index_assign, length_assign]
        by_cases c3 : i = k ∧ k < buf.length
        · have g1 : 0 < n + 1 ∧ k ≤ i ∧ i < k + (n + 1) := by omega
          rw [if_pos c3, if_pos g1]
        · rw [if_neg c3, index_assign]
          by_cases c4 : i = k + 1 ∧ k + 1 < buf.length
          · have g1 : ¬ (0 < n + 1 ∧ k ≤ i ∧ i < k + (n + 1)) := by omega
            have g2 : 0 < n + 1 ∧ i = k + (n + 1) := by omega
            rw [if_pos c4, if_neg g1, if_pos g2]
          · have g1 : ¬ (0 < n + 1 ∧ k ≤ i ∧ i < k + (n + 1)) := by omega
            have g2 : ¬ (0 < n + 1 ∧ i = k + (n + 1)) := by omega
            rw [if_neg c4, if_neg g1, if_neg g2]

end StdMoveSelfRight

namespace SimpleVector

variable {α : Type} [Elem α]

open ArrayPtr

/-- What the in-place branch of both `Insert` overloads leaves in the buffer: `value` at
offset `k`, the elements below `k` untouched, the old element of offset `k` in the new last
slot, and moved-from copies of it in between. -/
theorem inplace_items_index (v : SimpleVector α) (k : Nat) (value : α) (hv : v.Valid)
    (h : v.size_ < v.capacity_) (hk : k ≤ v.size_) (i : Nat) :
    ArrayPtr.index (assign (stdMoveSelf v.items_ k v.size_ (k + 1)) k value) i =
      if i = k then value
      else if k < i ∧ i < v.size_ then Elem.movedFrom (v.index k)
      else if k < v.size_ ∧ i = v.size_ then v.index k
      else v.index i := by
  obtain ⟨hs, hc⟩ := hv
  have hlen : k + (v.size_ - k) < v.items_.length := by omega
  rw [index_assign, stdMoveSelf, length_stdMoveSelfLoop,
    index_stdMoveSelfLoop_right _ _ _ _ hlen]
  by_cases c0 : i = k
  · have g : i = k ∧ k < v.items_.length := by omega
    rw [if_pos g, if_pos c0]
  · have g : ¬ (i = k ∧ k < v.items_.length) := by omega
    rw [if_neg g, if_neg c0]
    by_cases c1 : k < i ∧ i < v.size_
    · have g1 : 0 < v.size_ - k ∧ k ≤ i ∧ i < k + (v.size_ - k) := by omega
      rw [if_pos g1, if_pos c1]
      rfl
    · have g1 : ¬ (0 < v.size_ - k ∧ k ≤ i ∧ i < k + (v.size_ - k)) := by omega
      rw [if_neg g1, if_neg c1]
      by_cases c2 : k < v.size_ ∧ i = v.size_
      · have g2 : 0 < v.size_ - k ∧ i = k + (v.size_ - k) := by omega
        rw [if_pos g2, if_pos c2]
        rfl
      · have g2 : ¬ (0 < v.size_ - k ∧ i = k + (v.size_ - k)) := by omega
        rw [if_neg g2, if_neg c2]
        rfl

/-- C18, evaluated on the code: a `SimpleVector<std::string>` holding `a`, `b`, `c` with
capacity 5 takes the in-place branch; after `Insert(begin() + 1, z)` (either overload) the
capacity is 5, the size 4, the returned offset 1 and the element there `z`, but the live
elements are `a`, `z`, the empty string, `b`: the forward `std::move` overwrote `c` before
moving it. -/
theorem Insert_inplace_overwrites :
    (Reserve (mkInit ["a", "b", "c"]) 5).Valid ∧
    (Reserve (mkInit ["a", "b", "c"]) 5).toList = ["a", "b", "c"] ∧
    (Reserve (mkInit ["a", "b", "c"]) 5).GetCapacity = 5 ∧
    ((Reserve (mkInit ["a", "b", "c"]) 5).Insert 1 "z").1 = 1 ∧
    ((Reserve (mkInit ["a", "b", "c"]) 5).Insert 1 "z").2.GetCapacity = 5 ∧
    ((Reserve (mkInit ["a", "b", "c"]) 5).Insert 1 "z").2.GetSize = 4 ∧
    ((Reserve (mkInit ["a", "b", "c"]) 5).Insert 1 "z").2.toList = ["a", "z", "", "b"] ∧
    ((Reserve (mkInit ["a", "b", "c"]) 5).InsertMove 1 "z").2.toList = ["a", "z", "", "b"] ∧
    ((Reserve (mkInit ["a", "b", "c"]) 5).Insert 1 "z").2.toList ≠ ["a", "z", "b", "c"] ∧
    ((Reserve (mkInit ["a", "b", "c"]) 5).InsertMove 1 "z").2.toList ≠ ["a", "z", "b", "c"] := by
  decide

end SimpleVector

namespace SimpleVector

variable {α : Type} [Elem α]

open ArrayPtr

theorem toList_insert (v w : SimpleVector α) (k : Nat) (x : α) (hk : k ≤ v.size_)
    (hs : w.size_ = v.size_ + 1)
    (h : ∀ i, i ≤ v.size_ →
      w.index i = if i < k then v.index i else if i = k then x else v.index (i - 1)) :
    w.toList = v.toList.take k ++ [x] ++ v.toList.drop k := by
  have hl : (v.toList.take k).length = k := by
    rw [List.length_take, length_toList]; omega
  apply toList_eq_of
  · simp only [List.length_append, List.length_take, List.length_drop, length_toList,
      List.length_singleton, hs]
    omega
  · intro i hi
    rw [hs] at hi
    rw [h i (by omega), List.append_assoc]
    by_cases c1 : i < k
    · rw [if_pos c1, List.getElem?_append_left (by omega), List.getElem?_take, if_pos c1,
        getElem?_toList v i (by omega)]
    · rw [if_neg c1, List.getElem?_append_right (by omega), hl]
      by_cases c2 : i = k
      · rw [if_pos c2, c2]
        simp
      · have e : i - k = (i - k - 1) + 1 := by omega
        rw [if_neg c2, e, List.singleton_append, List.getElem?_cons_succ, List.getElem?_drop,
          getElem?_toList v _ (by omega)]
        congr 2
        omega

theorem Insert_empty_spec (v : SimpleVector α) (k : Nat) (x : α) (h0 : v.capacity_ = 0) :
    (v.Insert k x).1 = k ∧ (v.Insert k x).2.size_ = 1 ∧ (v.Insert k x).2.capacity_ = 1 ∧
      (v.Insert k x).2.index 0 = x := by
  rw [Insert_empty v k x h0]
  refine ⟨rfl, rfl, rfl, ?_⟩
  have g : 0 = 0 ∧ 0 < (mkSize 1 : SimpleVector α).items_.length := by
    simp [mkSize, Fill, length_FillLoop, length_create]
  show ArrayPtr.index (assign (mkSize 1).items_ 0 x) 0 = x
  rw [index_assign, if_pos g]

theorem InsertMove_empty_spec (v : SimpleVector α) (k : Nat) (x : α) (h0 : v.capacity_ = 0) :
    (v.InsertMove k x).1 = k ∧ (v.InsertMove k x).2.size_ = 1 ∧
      (v.InsertMove k x).2.capacity_ = 1 ∧ (v.InsertMove k x).2.index 0 = x := by
  rw [InsertMove_empty v k x h0]
  refine ⟨rfl, rfl, rfl, ?_⟩
  have g : 0 = 0 ∧ 0 < (create 1 : List α).length := by
    rw [length_create]; omega
  show ArrayPtr.index (assign (create 1) 0 x) 0 = x
  rw [index_assign, if_pos g]

theorem Insert_full_spec (v : SimpleVector α) (k : Nat) (x : α) (hv : v.Valid)
    (h0 : v.capacity_ ≠ 0) (hf : ¬ v.size_ < v.capacity_) (hk : k ≤ v.size_) :
    (v.Insert k x).1 = k ∧ (v.Insert k x).2.size_ = v.size_ + 1 ∧
      (v.Insert k x).2.capacity_ = v.capacity_ * 2 ∧
      ∀ i, i ≤ v.size_ →
        (v.Insert k x).2.index i =
          if i < k then v.index i else if i = k then x else v.index (i - 1) := by
  obtain ⟨hs, hc⟩ := hv
  have tv := Resize_valid (mkSize (v.capacity_ * 2) : SimpleVector α) (v.size_ + 1)
    (mkSize_valid _)
  have tsz := Resize_size (mkSize (v.capacity_ * 2) : SimpleVector α) (v.size_ + 1)
  have tcap : ((mkSize (v.capacity_ * 2) : SimpleVector α).Resize (v.size_ + 1)).capacity_ =
      v.capacity_ * 2 := by
    rw [Resize_capacity _ _ (mkSize_valid _)]
    have : v.size_ + 1 ≤ (mkSize (v.capacity_ * 2) : SimpleVector α).capacity_ := by
      show v.size_ + 1 ≤ v.capacity_ * 2
      omega
    rw [if_pos this]
    rfl
  have tlen : ((mkSize (v.capacity_ * 2) : SimpleVector α).Resize (v.size_ + 1)).items_.length =
      v.capacity_ * 2 := by
    rw [← tv.2, tcap]
  rw [Insert_full v k x h0 hf]
  refine ⟨rfl, tsz, tcap, ?_⟩
  intro i hi
  show ArrayPtr.index (stdCopy v.items_ k v.size_ (assign (stdCopy v.items_ 0 k _ 0) k x)
    (k + 1)) i = _
  simp only [stdCopy]
  rw [index_stdCopyLoop, length_assign, length_stdCopyLoop, tlen]
  by_cases c1 : k + 1 ≤ i ∧ i < k + 1 + (v.size_ - k) ∧ i < v.capacity_ * 2
  · have e : k + (i - (k + 1)) = i - 1 := by omega
    rw [if_pos c1, if_neg (by omega), if_neg (by omega), e]
    rfl
  · rw [if_neg c1, index_assign, length_stdCopyLoop, tlen]
    by_cases c2 : i = k
    · have g : i = k ∧ k < v.capacity_ * 2 := by omega
      rw [if_pos g, if_neg (by omega), if_pos c2]
    · have g : ¬ (i = k ∧ k < v.capacity_ * 2) := by omega
      have g2 : 0 ≤ i ∧ i < 0 + (k - 0) ∧ i < v.capacity_ * 2 := by omega
      rw [if_neg g, index_stdCopyLoop, tlen, if_pos g2, if_pos (by omega)]
      simp [index]

theorem InsertMove_full_spec (v : SimpleVector α) (k : Nat) (x : α) (hv : v.Valid)
    (h0 : v.capacity_ ≠ 0) (hf : ¬ v.size_ < v.capacity_) (hk : k ≤ v.size_) :
    (v.InsertMove k x).1 = k ∧ (v.InsertMove k x).2.size_ = v.size_ + 1 ∧
      (v.InsertMove k x).2.capacity_ = v.capacity_ * 2 ∧
      ∀ i, i ≤ v.size_ →
        (v.InsertMove k x).2.index i =
          if i < k then v.index i else if i = k then x else v.index (i - 1) := by
  obtain ⟨hs, hc⟩ := hv
  have flen : (FillWithDefaultLoop (create (v.capacity_ * 2) : List α) 0
      (v.capacity_ * 2)).length = v.capacity_ * 2 := by
    rw [length_FillWithDefaultLoop, length_create]
  rw [InsertMove_full v k x h0 hf]
  refine ⟨rfl, rfl, rfl, ?_⟩
  intro i hi
  show ArrayPtr.index (stdMove (stdMove v.items_ 0 k _ 0).1 k v.size_
    (assign (stdMove v.items_ 0 k _ 0).2 k x) (k + 1)).2 i = _
  simp only [stdMove]
  rw [index_stdMoveLoop_snd, length_assign, length_stdMoveLoop_snd, flen]
  by_cases c1 : k + 1 ≤ i ∧ i < k + 1 + (v.size_ - k) ∧ i < v.capacity_ * 2
  · have e : k + (i - (k + 1)) = i - 1 := by omega
    have g : ¬ (0 ≤ i - 1 ∧ i - 1 < 0 + (k - 0) ∧ i - 1 < v.items_.length) := by omega
    rw [if_pos c1, if_neg (by omega), if_neg (by omega), e, index_stdMoveLoop_fst, if_neg g]
    rfl
  · rw [if_neg c1, index_assign, length_stdMoveLoop_snd, flen]
    by_cases c2 : i = k
    · have g : i = k ∧ k < v.capacity_ * 2 := by omega
      rw [if_pos g, if_neg (by omega), if_pos c2]
    · have g : ¬ (i = k ∧ k < v.capacity_ * 2) := by omega
      have g2 : 0 ≤ i ∧ i < 0 + (k - 0) ∧ i < v.capacity_ * 2 := by omega
      rw [if_neg g, index_stdMoveLoop_snd, flen, if_pos g2, if_pos (by omega)]
      simp [index]

end SimpleVector

namespace SimpleVector

variable {α : Type} [Elem α]

open ArrayPtr

theorem Insert_growing_spec (v : SimpleVector α) (k : Nat) (x : α) (hv : v.Valid)
    (hfull : v.size_ = v.capacity_) (hk : k ≤ v.size_) :
    (v.Insert k x).1 = k ∧ (v.Insert k x).2.size_ = v.size_ + 1 ∧
      (v.Insert k x).2.capacity_ = (if v.capacity_ = 0 then 1 else v.capacity_ * 2) ∧
      ∀ i, i ≤ v.size_ →
        (v.Insert k x).2.index i =
          if i < k then v.index i else if i = k then x else v.index (i - 1) := by
  by_cases h0 : v.capacity_ = 0
  · obtain ⟨e1, e2, e3, e4⟩ := Insert_empty_spec v k x h0
    have hz : v.size_ = 0 := by omega
    refine ⟨e1, by rw [e2, hz], by rw [e3, if_pos h0], ?_⟩
    intro i hi
    have hi0 : i = 0 := by omega
    have hk0 : k = 0 := by omega
    subst hi0
    subst hk0
    rw [e4, if_neg (by omega), if_pos rfl]
  · obtain ⟨e1, e2, e3, e4⟩ := Insert_full_spec v k x hv h0 (by omega) hk
    exact ⟨e1, e2, by rw [e3, if_neg h0], e4⟩

theorem InsertMove_growing_spec (v : SimpleVector α) (k : Nat) (x : α) (hv : v.Valid)
    (hfull : v.size_ = v.capacity_) (hk : k ≤ v.size_) :
    (v.InsertMove k x).1 = k ∧ (v.InsertMove k x).2.size_ = v.size_ + 1 ∧
      (v.InsertMove k x).2.capacity_ = (if v.capacity_ = 0 then 1 else v.capacity_ * 2) ∧
      ∀ i, i ≤ v.size_ →
        (v.InsertMove k x).2.index i =
          if i < k then v.index i else if i = k then x else v.index (i - 1) := by
  by_cases h0 : v.capacity_ = 0
  · obtain ⟨e1, e2, e3, e4⟩ := InsertMove_empty_spec v k x h0
    have hz : v.size_ = 0 := by omega
    refine ⟨e1, by rw [e2, hz], by rw [e3, if_pos h0], ?_⟩
    intro i hi
    have hi0 : i = 0 := by omega
    have hk0 : k = 0 := by omega
    subst hi0
    subst hk0
    rw [e4, if_neg (by omega), if_pos rfl]
  · obtain ⟨e1, e2, e3, e4⟩ := InsertMove_full_spec v k x hv h0 (by omega) hk
    exact ⟨e1, e2, by rw [e3, if_neg h0], e4⟩

/-- C19: on a full vector (`size == capacity == c`) `Insert(begin() + k, value)` with
`k ≤ c`, in either overload, makes the capacity `2 * c` (1 when `c == 0`) and the size `c + 1`,
leaves the live elements `first k of xs ++ [value] ++ rest of xs`, and returns the iterator at
offset `k`, where the element is `value`; inserting 5 at offset 1 into the vector that two
pushes of 1 and 2 built gives `[1, 5, 2]`. -/
theorem Insert_full_contract (v : SimpleVector α) (hv : v.Valid)
    (hfull : v.GetSize = v.GetCapacity) (k : Nat) (hk : k ≤ v.GetSize) (value : α) :
    ((v.Insert (v.begin + k) value).2.GetCapacity =
        (if v.GetCapacity = 0 then 1 else 2 * v.GetCapacity) ∧
      (v.Insert (v.begin + k) value).2.GetSize = v.GetCapacity + 1 ∧
      (v.Insert (v.begin + k) value).2.toList =
        v.toList.take k ++ [value] ++ v.toList.drop k ∧
      (v.Insert (v.begin + k) value).1 = (v.Insert (v.begin + k) value).2.begin + k ∧
      (v.Insert (v.begin + k) value).2.index (v.Insert (v.begin + k) value).1 = value) ∧
    ((v.InsertMove (v.begin + k) value).2.GetCapacity =
        (if v.GetCapacity = 0 then 1 else 2 * v.GetCapacity) ∧
      (v.InsertMove (v.begin + k) value).2.GetSize = v.GetCapacity + 1 ∧
      (v.InsertMove (v.begin + k) value).2.toList =
        v.toList.take k ++ [value] ++ v.toList.drop k ∧
      (v.InsertMove (v.begin + k) value).1 = (v.InsertMove (v.begin + k) value).2.begin + k ∧
      (v.InsertMove (v.begin + k) value).2.index (v.InsertMove (v.begin + k) value).1 =
        value) ∧
    ((pushAll (mkDefault : SimpleVector Nat) [(false, 1), (false, 2)]).Insert 1 5).2.toList =
      [1, 5, 2] := by
  simp only [GetSize, GetCapacity, begin_eq, Nat.zero_add] at hfull hk ⊢
  obtain ⟨a1, a2, a3, a4⟩ := Insert_growing_spec v k value hv hfull hk
  obtain ⟨b1, b2, b3, b4⟩ := InsertMove_growing_spec v k value hv hfull hk
  refine ⟨⟨?_, by rw [a2, hfull], toList_insert v _ k value hk a2 a4, a1, ?_⟩,
    ⟨?_, by rw [b2, hfull], toList_insert v _ k value hk b2 b4, b1, ?_⟩, by decide⟩
  · rw [a3, Nat.mul_comm]
  · rw [a1, a4 k hk, if_neg (by omega), if_pos rfl]
  · rw [b3, Nat.mul_comm]
  · rw [b1, b4 k hk, if_neg (by omega), if_pos rfl]

/-- C19 at a concrete input: inserting `z` at offset 1 into the full vector built from the
strings `a`, `b`, `c`. -/
theorem Insert_full_contract_witness :
    (mkInit ["a", "b", "c"] : SimpleVector String).Valid ∧
    (mkInit ["a", "b", "c"] : SimpleVector String).GetSize =
      (mkInit ["a", "b", "c"] : SimpleVector String).GetCapacity ∧
    ((mkInit ["a", "b", "c"] : SimpleVector String).Insert 1 "z").2.toList =
      ["a", "z", "b", "c"] ∧
    ((mkInit ["a", "b", "c"] : SimpleVector String).InsertMove 1 "z").2.GetCapacity = 6 :=
  ⟨by decide, by decide,
   (Insert_full_contract (mkInit ["a", "b", "c"] : SimpleVector String) (by decide)
     (by decide) 1 (by decide) "z").1.2.2.1.trans (by decide),
   (Insert_full_contract (mkInit ["a", "b", "c"] : SimpleVector String) (by decide)
     (by decide) 1 (by decide) "z").2.1.1.trans (by decide)⟩

/-- C20: on a vector that satisfies the invariants and for a position in `[begin, end]`,
`Insert(pos, const Type&)` and `Insert(pos, Type&&)` return the same offset and leave the same
size, capacity and live elements; `PushBack(const Type&)` and `PushBack(Type&&)` leave the same
size, capacity and live elements. -/
theorem overloads_agree (v : SimpleVector α) (hv : v.Valid) (pos : Nat) (hpos : pos ≤ v.cend)
    (value : α) :
    ((v.Insert pos value).1 = (v.InsertMove pos value).1 ∧
      (v.Insert pos value).2.GetSize = (v.InsertMove pos value).2.GetSize ∧
      (v.Insert pos value).2.GetCapacity = (v.InsertMove pos value).2.GetCapacity ∧
      (v.Insert pos value).2.toList = (v.InsertMove pos value).2.toList) ∧
    ((v.PushBack value).GetSize = (v.PushBackMove value).GetSize ∧
      (v.PushBack value).GetCapacity = (v.PushBackMove value).GetCapacity ∧
      (v.PushBack value).toList = (v.PushBackMove value).toList) := by
  simp only [GetSize, GetCapacity, cend_eq] at hpos ⊢
  constructor
  · by_cases h : v.size_ < v.capacity_
    · have h0 : v.capacity_ ≠ 0 := by omega
      rw [Insert_inplace v pos value h0 h, InsertMove_inplace v pos value h0 h]
      exact ⟨rfl, rfl, rfl, rfl⟩
    · have hfull : v.size_ = v.capacity_ := by have := hv.1; omega
      obtain ⟨a1, a2, a3, a4⟩ := Insert_growing_spec v pos value hv hfull hpos
      obtain ⟨b1, b2, b3, b4⟩ := InsertMove_growing_spec v pos value hv hfull hpos
      refine ⟨by rw [a1, b1], by rw [a2, b2], by rw [a3, b3], ?_⟩
      rw [toList_insert v _ pos value hpos a2 a4, toList_insert v _ pos value hpos b2 b4]
  · obtain ⟨_, a2, a3, a4⟩ := PushBack_spec v value hv
    obtain ⟨_, b2, b3, b4⟩ := PushBackMove_spec v value hv
    refine ⟨by rw [a2, b2], ?_, ?_⟩
    · rw [PushBack_capacity v value hv, PushBackMove_capacity v value hv]
    · rw [toList_push v _ value a2 a3 a4, toList_push v _ value b2 b3 b4]

/-- C20 at a concrete input: both overloads on the vector holding `a`, `b`, `c` with capacity
5, at offset 1. -/
theorem overloads_agree_witness :
    (Reserve (mkInit ["a", "b", "c"]) 5).Valid ∧
    ((Reserve (mkInit ["a", "b", "c"]) 5).Insert 1 "z").2.toList =
      ((Reserve (mkInit ["a", "b", "c"]) 5).InsertMove 1 "z").2.toList ∧
    ((Reserve (mkInit ["a", "b", "c"]) 5).PushBack "z").toList =
      ((Reserve (mkInit ["a", "b", "c"]) 5).PushBackMove "z").toList :=
  ⟨by decide,
   (overloads_agree (Reserve (mkInit ["a", "b", "c"]) 5) (by decide) 1 (by decide) "z").1.2.2.2,
   (overloads_agree (Reserve (mkInit ["a", "b", "c"]) 5) (by decide) 1 (by decide) "z").2.2.2⟩

/-- C15 at a concrete input: the full vector built from `[1, 2]` with an allocator that
refuses every request. -/
theorem allocation_failure_witness :
    (mkInit [1, 2] : SimpleVector Nat).Valid ∧
    PushBackE (fun _ => false) (mkInit [1, 2] : SimpleVector Nat) 9 =
      Outcome.threw BadAlloc.bad_alloc (mkInit [1, 2]) ∧
    ResizeE (fun _ => false) (mkInit [1, 2] : SimpleVector Nat) 5 =
      Outcome.threw BadAlloc.bad_alloc (mkInit [1, 2]) ∧
    operatorAssignE (fun _ => false) (mkInit [1, 2] : SimpleVector Nat) (mkInit [3]) false =
      Outcome.threw BadAlloc.bad_alloc (mkInit [1, 2]) :=
  ⟨by decide,
   (allocation_failure (fun _ => false) (mkInit [1, 2] : SimpleVector Nat) (mkInit [3])
     (by decide) 9 0 5).1 (by decide) rfl,
   (allocation_failure (fun _ => false) (mkInit [1, 2] : SimpleVector Nat) (mkInit [3])
     (by decide) 9 0 5).2.2.1 (by decide) rfl,
   (allocation_failure (fun _ => false) (mkInit [1, 2] : SimpleVector Nat) (mkInit [3])
     (by decide) 9 0 5).2.2.2.2 (by decide) rfl⟩

end SimpleVector
